import Mathlib

/-!
Shallow embedding of the tinyWebSynth audio core
(`src/unnamed/part_001` of Mister-Industries/tinySpeak).

Modelling conventions:
* C `float` values (phase, frequency, envelope) are modelled as exact
  rationals `ℚ`; the float literals of the source (`0.9998f`, `0.001f`,
  the Arduino `PI` macro, ...) are taken at their written decimal value.
* `int` / `int32_t` are modelled as `ℤ`; `(int16_t)` narrowing casts are
  modelled as two's-complement wrap (`i16`), `(int32_t)` casts from float
  as truncation toward zero (`qtrunc`).
* `unsigned long` millisecond timestamps are modelled as `ℕ`.  The code's
  `now - lastStepMs` is `ℕ` subtraction; in every scenario considered the
  invariant `lastStepMs ≤ now` holds, where this agrees with the C
  modular subtraction.
* The 15-bit LFSR registers (`uint16_t nlfsr[2]`) are modelled as `ℕ`.
* WebSocket messages are `List Char`; the Arduino `String` helpers
  (`startsWith`, `substring`, `indexOf`, `toInt`, `toFloat`) are modelled
  below (`toInt`/`toFloat` in their decimal form, without exponents,
  which is all the protocol ever carries).
-/

/- The basic rational operations are `@[irreducible]` in the library,
which blocks `decide` from evaluating the model on concrete inputs;
restore their normal reducibility for this development. -/
attribute [local semireducible] Rat.mul Rat.inv Rat.ofScientific Rat.add Rat.sub

namespace TinySpeak

/-- The Arduino `PI` macro literal, as an exact rational. -/
def piF : ℚ := 3.1415926535897932384626433832795

/-- Two's-complement wrap of an `int32` value into `int16` range,
modelling the C `(int16_t)` narrowing cast. -/
def i16 (v : ℤ) : ℤ := (v + 32768) % 65536 - 32768

/-- Truncation toward zero of a rational, modelling the C cast from a
floating value to a signed integer type. -/
def qtrunc (x : ℚ) : ℤ := if 0 ≤ x then Int.floor x else Int.ceil x

/-- The Arduino `constrain(x, lo, hi)` macro on integers:
`(x<lo) ? lo : ((x>hi) ? hi : x)`. -/
def constrainZ (x lo hi : ℤ) : ℤ := if x < lo then lo else if x > hi then hi else x

/-- One audio channel record (`struct Channel`, part_001 lines 74-83),
with the C++ default member initialisers. -/
structure Channel where
  phase    : ℚ := 0
  curFreq  : ℚ := 440
  waveType : ℤ := 0
  envLvl   : ℚ := 0
  envDcy   : ℚ := 0.9998
  active   : Bool := false
  isNoise  : Bool := false
  pitchMul : ℚ := 1
deriving DecidableEq

/-- One melodic pattern step (`struct MelStep`, line 186): `freq == 0`
means rest. -/
structure MelStep where
  freq : ℚ := 0
  wave : ℤ := 0
deriving DecidableEq

/-- The global mutable state of the sketch: the five channels, the two
noise LFSR registers, global amplitude, live waveform, both pattern
grids and the sequencer variables (lines 85-194). -/
structure Sys where
  ch         : Fin 5 → Channel
  nlfsr0     : ℕ := 0xACE1
  nlfsr1     : ℕ := 0x9182
  gAmp       : ℤ := 10000
  liveWave   : ℤ := 0
  melPat     : Fin 2 → Fin 16 → MelStep
  drmPat     : Fin 3 → Fin 16 → Bool
  seqPlay    : Bool := false
  seqBPM     : ℤ := 120
  seqStep    : Fin 16 := 0
  lastStepMs : ℕ := 0

/-- The state right after global initialisation: default channels,
all-rest melodic pattern, all-off drum pattern. -/
def init : Sys :=
  { ch := fun _ => {}, melPat := fun _ _ => {}, drmPat := fun _ _ => false }

/-- The 15-bit Galois LFSR advance (line 91):
`(s >> 1) ^ ((s & 1) ? 0xB400 : 0)`. -/
def lfsrNext (s : ℕ) : ℕ := (s / 2) ^^^ (if s % 2 = 1 then 0xB400 else 0)

/-- `trigNote` (lines 95-104) writes every field of the channel, so its
result is independent of the previous channel state. -/
def trigNoteCh (freq : ℚ) (wave : ℤ) : Channel :=
  { phase := 0, curFreq := freq, waveType := wave, envLvl := 1,
    envDcy := 0.9998, active := true, isNoise := false, pitchMul := 1 }

/-- `releaseNote` (lines 106-109). -/
def releaseCh (c : Channel) : Channel := { c with active := false, envLvl := 0 }

/-- `trigKick` (lines 111-121); like `trigNote` it writes every field. -/
def trigKickCh : Channel :=
  { phase := 0, curFreq := 200, waveType := 0, envLvl := 1,
    envDcy := 0.9997, active := true, isNoise := false, pitchMul := 0.9991 }

/-- Channel-field part of `trigSnare` (lines 123-130): phase, frequency
and waveform are left untouched. -/
def trigSnareCh (c : Channel) : Channel :=
  { c with envLvl := 1, envDcy := 0.9988, active := true, isNoise := true,
           pitchMul := 1 }

/-- Channel-field part of `trigHat` (lines 132-139). -/
def trigHatCh (c : Channel) : Channel :=
  { c with envLvl := 1, envDcy := 0.9970, active := true, isNoise := true,
           pitchMul := 1 }

def trigNote (i : Fin 5) (f : ℚ) (w : ℤ) (st : Sys) : Sys :=
  { st with ch := Function.update st.ch i (trigNoteCh f w) }

def releaseNote (i : Fin 5) (st : Sys) : Sys :=
  { st with ch := Function.update st.ch i (releaseCh (st.ch i)) }

def trigKick (st : Sys) : Sys :=
  { st with ch := Function.update st.ch 2 trigKickCh }

/-- `trigSnare` also reseeds `nlfsr[0]` to `0xACE1` (line 129). -/
def trigSnare (st : Sys) : Sys :=
  { st with ch := Function.update st.ch 3 (trigSnareCh (st.ch 3)),
            nlfsr0 := 0xACE1 }

/-- `trigHat` also reseeds `nlfsr[1]` to `0x9182` (line 138). -/
def trigHat (st : Sys) : Sys :=
  { st with ch := Function.update st.ch 4 (trigHatCh (st.ch 4)),
            nlfsr1 := 0x9182 }

/-- `synthSample` (lines 143-182) acting on a single channel record:
given the global amplitude and the noise register selected for this
channel, return the updated channel, the updated register and the
produced sample value. -/
def synthSampleCh (gA : ℤ) (c : Channel) (reg : ℕ) : Channel × ℕ × ℤ :=
  if c.active = false ∨ c.envLvl < 1/1000 then
    ({ c with active := false }, reg, 0)
  else
    let amp : ℤ := qtrunc ((gA : ℚ) / 5 * c.envLvl)
    if c.isNoise then
      let reg1 := lfsrNext reg
      let val : ℤ := if reg1 % 2 = 1 then i16 amp else i16 (-amp)
      ({ c with envLvl := c.envLvl * c.envDcy }, reg1, val)
    else
      let val : ℤ :=
        if c.waveType = 0 then (if c.phase < piF then i16 amp else i16 (-amp))
        else if c.waveType = 1 then
          i16 (qtrunc ((c.phase / (2 * piF) * 2 - 1) * (amp : ℚ)))
        else if c.waveType = 2 then
          (if c.phase < piF * 0.5 then i16 amp else i16 (-amp))
        else 0
      let ph1 := c.phase + (2 * piF * c.curFreq) / 44100
      let ph2 := if 2 * piF ≤ ph1 then ph1 - 2 * piF else ph1
      let fr1 := if c.pitchMul ≠ 1 then
                   (if c.curFreq * c.pitchMul < 30 then 30
                    else c.curFreq * c.pitchMul)
                 else c.curFreq
      ({ c with phase := ph2, curFreq := fr1, envLvl := c.envLvl * c.envDcy },
       reg, val)

/-- `synthSample(c)` at system level.  The register index is
`(c == CH_SNARE) ? 0 : 1` (line 154); its update is written back to the
same slot. -/
def synthSample (i : Fin 5) (st : Sys) : Sys × ℤ :=
  let regIn := if i.val = 3 then st.nlfsr0 else st.nlfsr1
  let r := synthSampleCh st.gAmp (st.ch i) regIn
  ({ st with ch := Function.update st.ch i r.1,
             nlfsr0 := if i.val = 3 then r.2.1 else st.nlfsr0,
             nlfsr1 := if i.val = 3 then st.nlfsr1 else r.2.1 },
   r.2.2)

/-- The mixing loop body `for c: mix += synthSample(c)` over a list of
channel indices, threading the state left to right. -/
def mixChannels : List (Fin 5) → Sys → Sys × ℤ
  | [], st => (st, 0)
  | i :: is, st =>
      let r := synthSample i st
      let rest := mixChannels is r.1
      (rest.1, r.2 + rest.2)

/-- The pre-clamp five-channel sum of one output frame
(lines 1047-1048 and, identically, 956-957). -/
def mixSum (st : Sys) : ℤ := (mixChannels [0, 1, 2, 3, 4] st).2

/-- One output frame: sum all five channels, then hard-clamp
(`constrain(mix, -32767, 32767)`, lines 1050 and 958). -/
def mixFrame (st : Sys) : Sys × ℤ :=
  let r := mixChannels [0, 1, 2, 3, 4] st
  (r.1, constrainZ r.2 (-32767) 32767)

/-- `trigSequencerStep` (lines 196-209): melody tracks first (trigger on
`freq > 0`, release otherwise), then the three drum tracks. -/
def trigSequencerStep (s : Fin 16) (st : Sys) : Sys :=
  let st1 := if (st.melPat 0 s).freq > 0
             then trigNote 0 (st.melPat 0 s).freq (st.melPat 0 s).wave st
             else releaseNote 0 st
  let st2 := if (st1.melPat 1 s).freq > 0
             then trigNote 1 (st1.melPat 1 s).freq (st1.melPat 1 s).wave st1
             else releaseNote 1 st1
  let st3 := if st2.drmPat 0 s then trigKick st2 else st2
  let st4 := if st3.drmPat 1 s then trigSnare st3 else st3
  if st4.drmPat 2 s then trigHat st4 else st4

/-! ### Arduino String helpers used by the WebSocket handler -/

/-- `String::startsWith`. -/
def startsWithL : List Char → List Char → Bool
  | [], _ => true
  | _ :: _, [] => false
  | p :: ps, c :: cs => p == c && startsWithL ps cs

/-- Index of the first occurrence of a character in a list. -/
def findChar (a : Char) : List Char → Option ℕ
  | [] => none
  | c :: cs => if c == a then some 0 else (findChar a cs).map (· + 1)

/-- `String::indexOf(ch, fromIndex)`: absolute index of the first
occurrence at position ≥ `frm`, or `-1`. -/
def indexOfFrom (a : Char) (l : List Char) (frm : ℕ) : ℤ :=
  match findChar a (l.drop frm) with
  | none => -1
  | some i => ((i + frm : ℕ) : ℤ)

def skipSpaces : List Char → List Char
  | [] => []
  | c :: cs => if c = ' ' ∨ c = '\t' ∨ c = '\n' ∨ c = '\r' then skipSpaces cs
               else c :: cs

/-- Leading decimal digits of a list, and the remainder. -/
def takeDigits : List Char → List Char × List Char
  | [] => ([], [])
  | c :: cs => if c.isDigit then
                 (let r := takeDigits cs; (c :: r.1, r.2))
               else ([], c :: cs)

def digitsToNat (l : List Char) : ℕ :=
  l.foldl (fun a c => a * 10 + (c.toNat - 48)) 0

/-- Magnitude part of `String::toFloat` (strtod without exponents:
digits, optionally followed by a point and more digits). -/
def tofMag (l : List Char) : ℚ :=
  let p := takeDigits l
  let ip : ℚ := (digitsToNat p.1 : ℕ)
  match p.2 with
  | '.' :: rest =>
      let q := takeDigits rest
      ip + (digitsToNat q.1 : ℚ) / (10 ^ q.1.length : ℕ)
  | _ => ip

/-- `String::toFloat` on the decimal notations the protocol carries. -/
def toFloatQ (l : List Char) : ℚ :=
  match skipSpaces l with
  | '-' :: cs => -(tofMag cs)
  | '+' :: cs => tofMag cs
  | cs => tofMag cs

/-- Integer magnitude part of `String::toInt` (atol): leading digits. -/
def toiMag (l : List Char) : ℕ := digitsToNat (takeDigits l).1

/-- `String::toInt` (atol): optional whitespace, optional sign, leading
digits; no digits parse as 0. -/
def toIntZ (l : List Char) : ℤ :=
  match skipSpaces l with
  | '-' :: cs => -(toiMag cs : ℤ)
  | '+' :: cs => (toiMag cs : ℤ)
  | cs => (toiMag cs : ℤ)

def fin2 (z : ℤ) : Fin 2 := ⟨z.toNat % 2, by omega⟩
def fin3 (z : ℤ) : Fin 3 := ⟨z.toNat % 3, by omega⟩
def fin16 (z : ℤ) : Fin 16 := ⟨z.toNat % 16, by omega⟩

/-- The `SEQ_SET:` branch of `onWsEvent` (lines 841-851); `body` is the
message after the 8-character command tag. -/
def seqSetCmd (body : List Char) (st : Sys) : Sys :=
  let c1 := indexOfFrom ',' body 0
  let c2 := indexOfFrom ',' body (c1 + 1).toNat
  let c3 := indexOfFrom ',' body (c2 + 1).toNat
  if c1 < 0 ∨ c2 < 0 ∨ c3 < 0 then st
  else
    let t := constrainZ (toIntZ (body.take c1.toNat)) 0 1
    let s := constrainZ (toIntZ ((body.take c2.toNat).drop (c1 + 1).toNat)) 0 15
    let f := toFloatQ ((body.take c3.toNat).drop (c2 + 1).toNat)
    let w := constrainZ (toIntZ (body.drop (c3 + 1).toNat)) 0 2
    { st with melPat := fun tt ss =>
        if tt = fin2 t ∧ ss = fin16 s then { freq := f, wave := w }
        else st.melPat tt ss }

/-- The `SEQ_DRUM:` branch of `onWsEvent` (lines 853-860). -/
def seqDrumCmd (body : List Char) (st : Sys) : Sys :=
  let c1 := indexOfFrom ',' body 0
  let c2 := indexOfFrom ',' body (c1 + 1).toNat
  if c1 < 0 ∨ c2 < 0 then st
  else
    let t := constrainZ (toIntZ (body.take c1.toNat)) 0 2
    let s := constrainZ (toIntZ ((body.take c2.toNat).drop (c1 + 1).toNat)) 0 15
    let v := if toIntZ (body.drop (c2 + 1).toNat) ≠ 0 then true else false
    { st with drmPat := fun tt ss =>
        if tt = fin3 t ∧ ss = fin16 s then v else st.drmPat tt ss }

/-- The `WS_EVT_DATA` handler `onWsEvent` (lines 818-881) as a state
transformer on the decoded text message.  `now` is the value `millis()`
would return inside the `SEQ_PLAY` branch. -/
def onWsMsg (now : ℕ) (msg : List Char) (st : Sys) : Sys :=
  if startsWithL ['P','L','A','Y',':'] msg then
    trigNote 0 (toFloatQ (msg.drop 5)) st.liveWave st
  else if msg = ['S','T','O','P'] then
    releaseNote 0 st
  else if startsWithL ['W','A','V','E',':'] msg then
    { st with liveWave := constrainZ (toIntZ (msg.drop 5)) 0 2 }
  else if startsWithL ['V','O','L',':'] msg then
    { st with gAmp := constrainZ (toIntZ (msg.drop 4)) 0 30000 }
  else if startsWithL ['S','E','Q','_','S','E','T',':'] msg then
    seqSetCmd (msg.drop 8) st
  else if startsWithL ['S','E','Q','_','D','R','U','M',':'] msg then
    seqDrumCmd (msg.drop 9) st
  else if startsWithL ['S','E','Q','_','B','P','M',':'] msg then
    { st with seqBPM := constrainZ (toIntZ (msg.drop 8)) 40 240 }
  else if msg = ['S','E','Q','_','P','L','A','Y'] then
    { st with seqStep := 0, lastStepMs := now, seqPlay := true }
  else if msg = ['S','E','Q','_','S','T','O','P'] then
    releaseNote 1 (releaseNote 0 { st with seqPlay := false })
  else if msg = ['S','E','Q','_','C','L','E','A','R'] then
    releaseNote 1 (releaseNote 0
      { st with melPat := fun _ _ => {}, drmPat := fun _ _ => false })
  else st

/-! ### Sequencer service (the step-advance part of `loop`) -/

/-- The body of a fired sequencer step (lines 1035-1037, after
`lastStepMs` has been advanced): trigger the current step, then advance
`seqStep = (seqStep + 1) % NUM_STEPS`. -/
def advanceStep (st : Sys) : Sys :=
  let st2 := trigSequencerStep st.seqStep st
  { st2 with seqStep := ⟨(st2.seqStep.val + 1) % 16, by omega⟩ }

/-- The sequencer step-advance block of `loop` (lines 1028-1039), called
with the current `millis()` value; returns the new state and whether a
step fired.  At most one step fires per service call. -/
def serviceSeq (now : ℕ) (st : Sys) : Sys × Bool :=
  if st.seqPlay then
    if 60000 / st.seqBPM.toNat / 4 ≤ now - st.lastStepMs then
      (advanceStep
        { st with lastStepMs := st.lastStepMs + 60000 / st.seqBPM.toNat / 4 },
       true)
    else (st, false)
  else (st, false)

/-- Simulate a sequence of service calls: `es` are the elapsed
milliseconds between consecutive calls (the first call happens `es[0]`
after time `t`).  Returns the final state and the number of steps that
fired. -/
def runService (st : Sys) (t : ℕ) : List ℕ → Sys × ℕ
  | [] => (st, 0)
  | e :: es =>
      let t1 := t + e
      let r := serviceSeq t1 st
      let rest := runService r.1 t1 es
      (rest.1, (if r.2 then 1 else 0) + rest.2)

/-! ### WAV export -/

/-- `stepDurMs = 60000UL / seqBPM / 4` (line 925, same formula as
line 1031). -/
def stepDurMs (bpm : ℤ) : ℕ := 60000 / bpm.toNat / 4

/-- `samplesPerStep = SAMPLE_RATE * stepDurMs / 1000` (line 926). -/
def samplesPerStep (bpm : ℤ) : ℕ := 44100 * stepDurMs bpm / 1000

def u16le (v : ℕ) : List ℕ := [v % 256, v / 256 % 256]

def u32le (v : ℕ) : List ℕ :=
  [v % 256, v / 256 % 256, v / 65536 % 256, v / 16777216 % 256]

/-- Bytes of one stereo 16-bit PCM sample value (two's complement,
little-endian). -/
def i16le (v : ℤ) : List ℕ := u16le (v % 65536).toNat

/-- `writeWAVHeader` (lines 891-908): the 44 header bytes for
`totalSamples` stereo frames. -/
def wavHeader (totalSamples : ℕ) : List ℕ :=
  let dataBytes := totalSamples * 4
  [82, 73, 70, 70] ++ u32le (36 + dataBytes) ++
  [87, 65, 86, 69] ++ [102, 109, 116, 32] ++
  u32le 16 ++ u16le 1 ++ u16le 2 ++ u32le 44100 ++ u32le (44100 * 4) ++
  u16le 4 ++ u16le 16 ++ [100, 97, 116, 97] ++ u32le dataBytes

/-- The inner sample loop of the export render (lines 955-965): `n`
frames through the shared mix/clamp path. -/
def renderFrames : ℕ → Sys → Sys × List ℤ
  | 0, st => (st, [])
  | n + 1, st =>
      let r := mixFrame st
      let rest := renderFrames n r.1
      (rest.1, r.2 :: rest.2)

/-- The per-step loop of the export render (lines 952-966): trigger the
step, then render `sps` frames. -/
def renderStepsList : List (Fin 16) → ℕ → Sys → Sys × List ℤ
  | [], _, st => (st, [])
  | s :: ss, sps, st =>
      let st1 := trigSequencerStep s st
      let r := renderFrames sps st1
      let rest := renderStepsList ss sps r.1
      (rest.1, r.2 ++ rest.2)

/-- The outer loop of the export render (line 951): `n` passes over all
16 steps. -/
def renderLoops : ℕ → ℕ → Sys → Sys × List ℤ
  | 0, _, st => (st, [])
  | n + 1, sps, st =>
      let r := renderStepsList (List.finRange 16) sps st
      let rest := renderLoops n sps r.1
      (rest.1, r.2 ++ rest.2)

/-- The sample-producing part of `exportPatternToWAV` (lines 924-969):
reset all channel records to the zero-initialised baseline (line 937),
then render `numLoops × 16 × samplesPerStep` frames.  The two LFSR
registers are NOT reset here. -/
def exportSamples (st : Sys) (numLoops : ℕ) : Sys × List ℤ :=
  let st0 := { st with ch := fun _ => {} }
  renderLoops numLoops (samplesPerStep st.seqBPM) st0

/-- Byte serialisation of the rendered frames: each frame is written to
both stereo channels (lines 960-961). -/
def framesBytes (l : List ℤ) : List ℕ :=
  l.foldr (fun v acc => i16le v ++ i16le v ++ acc) []

/-- `exportPatternToWAV` (lines 910-973).  `sdOk` models `SD.begin()`
succeeding, `openOk` models `SD.open(path, FILE_WRITE)` returning a
valid file.  Returns the bytes written (`none` on failure) and the
resulting engine state; on failure the engine state is returned
untouched. -/
def exportPatternToWAV (sdOk openOk : Bool) (st : Sys) (numLoops : ℕ) :
    Option (List ℕ) × Sys :=
  if sdOk = false then (none, st)
  else if openOk = false then (none, st)
  else
    let sps := samplesPerStep st.seqBPM
    let total := sps * 16 * numLoops
    let r := exportSamples st numLoops
    (some (wavHeader total ++ framesBytes r.2), r.1)

/-! ### Channel-local operation trajectories (for the envelope claims) -/

/-- An operation applied to a single channel between two triggers:
either one `synthSample` rendering pass or a `releaseNote`. -/
inductive SynthOp
  | render
  | release

/-- Apply one post-trigger operation to a channel together with its
noise register. -/
def applySynthOp (gA : ℤ) : SynthOp → Channel × ℕ → Channel × ℕ
  | SynthOp.render, s =>
      let r := synthSampleCh gA s.1 s.2
      (r.1, r.2.1)
  | SynthOp.release, s => (releaseCh s.1, s.2)

/-- Apply a list of post-trigger operations left to right. -/
def runOps (gA : ℤ) : List SynthOp → Channel × ℕ → Channel × ℕ
  | [], s => s
  | op :: ops, s => runOps gA ops (applySynthOp gA op s)

/-- One of the four trigger operations of the engine. -/
inductive TrigOp
  | note (f : ℚ) (w : ℤ)
  | kick
  | snare
  | hat

/-- Apply a trigger to a channel and its noise register (`trigSnare` /
`trigHat` reseed the register, lines 129 and 138). -/
def applyTrig : TrigOp → Channel × ℕ → Channel × ℕ
  | TrigOp.note f w, s => (trigNoteCh f w, s.2)
  | TrigOp.kick, s => (trigKickCh, s.2)
  | TrigOp.snare, s => (trigSnareCh s.1, 0xACE1)
  | TrigOp.hat, s => (trigHatCh s.1, 0x9182)

/-- Iterate the per-channel part of `synthSample` on one channel.  The
register argument is irrelevant for non-noise channels (such as the
Kick), so 0 is passed. -/
def chIter (gA : ℤ) : ℕ → Channel → Channel
  | 0, c => c
  | n + 1, c => (synthSampleCh gA (chIter gA n c) 0).1

/-- The Kick channel's frequency `n` rendered samples after `trigKick`. -/
def kickFreq (gA : ℤ) (n : ℕ) : ℚ := (chIter gA n trigKickCh).curFreq

/-! ### Reachability through the public command interface -/

/-- States reachable from startup through WebSocket commands (restricted
to a predicate `ok`), sequencer service calls and audio frames. -/
inductive Reachable (ok : List Char → Prop) : Sys → Prop
  | start : Reachable ok init
  | cmd {st : Sys} (now : ℕ) (msg : List Char) :
      Reachable ok st → ok msg → Reachable ok (onWsMsg now msg st)
  | seq {st : Sys} (now : ℕ) :
      Reachable ok st → Reachable ok (serviceSeq now st).1
  | audio {st : Sys} :
      Reachable ok st → Reachable ok (mixFrame st).1

/-- Restriction of the command stream to live note-on messages carrying
a nonzero parsed frequency; all other commands are unrestricted. -/
def playGuard (msg : List Char) : Prop :=
  startsWithL ['P','L','A','Y',':'] msg = true → toFloatQ (msg.drop 5) ≠ 0

/-! ### Invariants and simulation relations used by the theorems -/

/-- Envelope bookkeeping invariant: a nonnegative level and a decay
factor in `[0, 1]` (every trigger establishes it). -/
def EnvInv (c : Channel) : Prop := 0 ≤ c.envLvl ∧ 0 ≤ c.envDcy ∧ c.envDcy ≤ 1

/-- No channel carries frequency exactly 0 (whether active or not). -/
def FreqInv (st : Sys) : Prop := ∀ i : Fin 5, (st.ch i).curFreq ≠ 0

/-- All five channels are inactive. -/
def Silent (st : Sys) : Prop := ∀ i : Fin 5, (st.ch i).active = false

/-- The pattern is entirely rests and off drum steps. -/
def AllRest (st : Sys) : Prop :=
  (∀ (t : Fin 2) (s : Fin 16), (st.melPat t s).freq = 0) ∧
  (∀ (t : Fin 3) (s : Fin 16), st.drmPat t s = false)

/-- Simulation relation between two export renders: equal channels,
volume and patterns; the melodic and Kick channels are not in noise
mode; and whenever a noise channel is in noise mode its register has
already been reseeded, so the registers agree. -/
def ExportAgree (s1 s2 : Sys) : Prop :=
  s1.ch = s2.ch ∧ s1.gAmp = s2.gAmp ∧ s1.melPat = s2.melPat ∧
  s1.drmPat = s2.drmPat ∧
  (s1.ch 0).isNoise = false ∧ (s1.ch 1).isNoise = false ∧
  (s1.ch 2).isNoise = false ∧
  ((s1.ch 3).isNoise = true → s1.nlfsr0 = s2.nlfsr0) ∧
  ((s1.ch 4).isNoise = true → s1.nlfsr1 = s2.nlfsr1)

/-! ### Concrete states used by counterexamples and witnesses -/

/-- A state in which the sequencer has just been started at time 0
(`SEQ_PLAY`: `seqStep = 0`, `lastStepMs = now`, `seqPlay = true`) with
the default BPM of 120. -/
def startedSys : Sys := { init with seqPlay := true }

/-- A saw-wave channel whose phase has escaped the one-cycle range
(as produced by a live `PLAY:` frequency above the sample rate, which
`onWsEvent` does not clamp): at `phase = 4π` the saw formula of
`synthSample` evaluates to `3 × amp`. -/
def sawRunawayCh : Channel :=
  { phase := 4 * piF, curFreq := 440, waveType := 1, envLvl := 1,
    envDcy := 0.9998, active := true, isNoise := false, pitchMul := 1 }

/-- Lead and Bass both in the runaway-saw state, at full volume. -/
def sawRunawaySys : Sys :=
  { init with gAmp := 30000,
              ch := fun i => if i.val < 2 then sawRunawayCh else {} }

/-- A pattern whose Lead step 0 stores the (nonzero, negative)
frequency -1, as `SEQ_SET:0,0,-1,0` would store it. -/
def negFreqSys : Sys :=
  { init with melPat := fun t s =>
      if t = 0 ∧ s = 0 then { freq := -1, wave := 0 } else {} }

/-- A pattern with a 440 Hz Lead note and a Kick hit on step 0. -/
def noteKickSys : Sys :=
  { init with
      melPat := fun t s =>
        if t = 0 ∧ s = 0 then { freq := 440, wave := 0 } else {},
      drmPat := fun t s => decide (t = 0 ∧ s = 0) }

/-- An arbitrarily perturbed live state with the same pattern, BPM and
volume as `init`: channels mid-decay and scrambled noise registers. -/
def liveDirtySys : Sys :=
  { init with
      ch := fun _ =>
        { phase := 1, curFreq := 880, waveType := 1, envLvl := 1/2,
          envDcy := 0.9998, active := true, isNoise := false,
          pitchMul := 1 },
      nlfsr0 := 0x1234, nlfsr1 := 0x4321, liveWave := 2 }


/-! ## Theorems -/

/-- C7: if the storage sink cannot be opened at export time, the export
returns having reported failure (`none`) with the entire engine state
unchanged. -/
theorem c7_export_failure_keeps_state (st : Sys) (L : ℕ) (sdOk openOk : Bool)
    (h : sdOk = false ∨ openOk = false) :
    exportPatternToWAV sdOk openOk st L = (none, st) := by
  rcases h with h | h
  · subst h; rfl
  · subst h; cases sdOk <;> rfl

theorem c7_witness : exportPatternToWAV false true init 2 = (none, init) :=
  c7_export_failure_keeps_state init 2 false true (Or.inl rfl)

-- helper lemmas for C8
theorem findChar_eq_some (a : Char) :
    ∀ (l : List Char) (i : ℕ), findChar a l = some i →
      ∃ l1 l2, l = l1 ++ a :: l2 ∧ l1.length = i ∧ a ∉ l1 := by
  intro l
  induction l with
  | nil => intro i h; simp [findChar] at h
  | cons c cs ih =>
      intro i h
      by_cases hc : c == a
      · have hca : c = a := by simpa using hc
        have : i = 0 := by
          simp [findChar, hc] at h
          omega
        subst this hca
        exact ⟨[], cs, rfl, rfl, by simp⟩
      · simp only [findChar, hc, if_neg] at h
        rcases hj : findChar a cs with _ | j
        · rw [hj] at h; simp at h
        · rw [hj] at h
          have hij : i = j + 1 := by simpa using h.symm
          obtain ⟨l1, l2, hsp, hlen, hni⟩ := ih j hj
          refine ⟨c :: l1, l2, by rw [hsp]; rfl, by simp [List.length_cons, hlen, hij], ?_⟩
          intro hmem
          rcases List.mem_cons.mp hmem with h1 | h1
          · exact hc (by simp [h1])
          · exact hni h1

theorem findChar_mem (a : Char) (l : List Char) (i : ℕ)
    (h : findChar a l = some i) : a ∈ l := by
  obtain ⟨l1, l2, hsp, _, _⟩ := findChar_eq_some a l i h
  rw [hsp]; exact List.mem_append_right _ (List.mem_cons_self a l2)

theorem seqDrumCmd_drop (body : List Char) (st : Sys)
    (h : body.count ',' < 2) : seqDrumCmd body st = st := by
  rcases h1 : findChar ',' body with _ | i
  · have e1 : indexOfFrom ',' body 0 = -1 := by
      unfold indexOfFrom; rw [List.drop_zero, h1]
    unfold seqDrumCmd
    rw [e1]
    norm_num
  · have e1 : indexOfFrom ',' body 0 = (i : ℤ) := by
      unfold indexOfFrom; rw [List.drop_zero, h1]; simp
    obtain ⟨l1, l2, hsp, hlen, _⟩ := findChar_eq_some ',' body i h1
    have hdrop : body.drop (i + 1) = l2 := by
      rw [hsp, show l1 ++ ',' :: l2 = (l1 ++ [',']) ++ l2 by simp,
          show i + 1 = (l1 ++ [',']).length by simp [hlen]]
      exact List.drop_left _ _
    rcases h2 : findChar ',' l2 with _ | j
    · have e2 : indexOfFrom ',' body ((i : ℤ) + 1).toNat = -1 := by
        unfold indexOfFrom
        rw [show ((i : ℤ) + 1).toNat = i + 1 by omega, hdrop, h2]
      unfold seqDrumCmd
      simp only [e1]
      rw [e2]
      norm_num
    · exfalso
      have hc2 : 0 < l2.count ',' :=
        List.count_pos_iff.mpr (findChar_mem ',' l2 j h2)
      have : 2 ≤ body.count ',' := by
        rw [hsp, List.count_append, List.count_cons_self]
        omega
      omega

theorem seqSetCmd_drop (body : List Char) (st : Sys)
    (h : body.count ',' < 3) : seqSetCmd body st = st := by
  rcases h1 : findChar ',' body with _ | i
  · have e1 : indexOfFrom ',' body 0 = -1 := by
      unfold indexOfFrom; rw [List.drop_zero, h1]
    unfold seqSetCmd
    rw [e1]
    norm_num
  · have e1 : indexOfFrom ',' body 0 = (i : ℤ) := by
      unfold indexOfFrom; rw [List.drop_zero, h1]; simp
    obtain ⟨l1, l2, hsp, hlen, _⟩ := findChar_eq_some ',' body i h1
    have hdrop : body.drop (i + 1) = l2 := by
      rw [hsp, show l1 ++ ',' :: l2 = (l1 ++ [',']) ++ l2 by simp,
          show i + 1 = (l1 ++ [',']).length by simp [hlen]]
      exact List.drop_left _ _
    have hcnt : body.count ',' = l1.count ',' + (l2.count ',' + 1) := by
      rw [hsp, List.count_append, List.count_cons_self]
    rcases h2 : findChar ',' l2 with _ | j
    · have e2 : indexOfFrom ',' body ((i : ℤ) + 1).toNat = -1 := by
        unfold indexOfFrom
        rw [show ((i : ℤ) + 1).toNat = i + 1 by omega, hdrop, h2]
      unfold seqSetCmd
      simp only [e1]
      rw [e2]
      norm_num
    · have e2 : indexOfFrom ',' body ((i : ℤ) + 1).toNat = ((j + (i + 1) : ℕ) : ℤ) := by
        unfold indexOfFrom
        rw [show ((i : ℤ) + 1).toNat = i + 1 by omega, hdrop, h2]
      obtain ⟨l3, l4, hsp2, hlen2, _⟩ := findChar_eq_some ',' l2 j h2
      have hdrop2 : body.drop (j + (i + 1) + 1) = l4 := by
        rw [show j + (i + 1) + 1 = (i + 1) + (j + 1) by omega, ← List.drop_drop, hdrop,
            hsp2, show l3 ++ ',' :: l4 = (l3 ++ [',']) ++ l4 by simp,
            show j + 1 = (l3 ++ [',']).length by simp [hlen2]]
        exact List.drop_left _ _
      have hcnt2 : l2.count ',' = l3.count ',' + (l4.count ',' + 1) := by
        rw [hsp2, List.count_append, List.count_cons_self]
      rcases h3 : findChar ',' l4 with _ | k
      · have e3 : indexOfFrom ',' body (((j + (i + 1) : ℕ) : ℤ) + 1).toNat = -1 := by
          unfold indexOfFrom
          rw [show (((j + (i + 1) : ℕ) : ℤ) + 1).toNat = j + (i + 1) + 1 by omega, hdrop2, h3]
        unfold seqSetCmd
        simp only [e1, e2]
        rw [e3]
        norm_num
      · exfalso
        have hc3 : 0 < l4.count ',' :=
          List.count_pos_iff.mpr (findChar_mem ',' l4 k h3)
        omega

/-- C8: a `SEQ_DRUM:` message whose body carries fewer than the two
required commas, and a `SEQ_SET:` message whose body carries fewer than
the three required commas, are both dropped with the whole engine state
(channels, patterns, sequencer) unchanged. -/
theorem c8_missing_fields_dropped (st : Sys) (now : ℕ)
    (bodyD bodyS : List Char)
    (hD : bodyD.count ',' < 2) (hS : bodyS.count ',' < 3) :
    onWsMsg now (['S','E','Q','_','D','R','U','M',':'] ++ bodyD) st = st ∧
    onWsMsg now (['S','E','Q','_','S','E','T',':'] ++ bodyS) st = st := by
  constructor
  · have e : onWsMsg now (['S','E','Q','_','D','R','U','M',':'] ++ bodyD) st
        = seqDrumCmd bodyD st := rfl
    rw [e]
    exact seqDrumCmd_drop bodyD st hD
  · have e : onWsMsg now (['S','E','Q','_','S','E','T',':'] ++ bodyS) st
        = seqSetCmd bodyS st := rfl
    rw [e]
    exact seqSetCmd_drop bodyS st hS

/-- C8 witness: `SEQ_DRUM:1,5` (one comma in the body instead of two)
and `SEQ_SET:0,0` leave the startup state untouched. -/
theorem c8_witness :
    onWsMsg 0 (['S','E','Q','_','D','R','U','M',':'] ++ ['1',',','5']) init = init ∧
    onWsMsg 0 (['S','E','Q','_','S','E','T',':'] ++ ['0',',','0']) init = init :=
  c8_missing_fields_dropped init 0 ['1',',','5'] ['0',',','0'] (by decide) (by decide)

-- helper: trigSequencerStep leaves the sequencer clock fields alone
theorem trigStep_clock (s : Fin 16) (st : Sys) :
    (trigSequencerStep s st).seqPlay = st.seqPlay ∧
    (trigSequencerStep s st).seqBPM = st.seqBPM ∧
    (trigSequencerStep s st).lastStepMs = st.lastStepMs ∧
    (trigSequencerStep s st).seqStep = st.seqStep := by
  simp only [trigSequencerStep]
  split_ifs <;> exact ⟨rfl, rfl, rfl, rfl⟩

theorem advanceStep_clock (st : Sys) :
    (advanceStep st).seqPlay = st.seqPlay ∧
    (advanceStep st).seqBPM = st.seqBPM ∧
    (advanceStep st).lastStepMs = st.lastStepMs := by
  have h := trigStep_clock st.seqStep st
  exact ⟨h.1, h.2.1, h.2.2.1⟩

theorem serviceSeq_fire (now : ℕ) (st : Sys) (h1 : st.seqPlay = true)
    (hf : 60000 / st.seqBPM.toNat / 4 ≤ now - st.lastStepMs) :
    (serviceSeq now st).2 = true ∧
    (serviceSeq now st).1.lastStepMs
      = st.lastStepMs + 60000 / st.seqBPM.toNat / 4 ∧
    (serviceSeq now st).1.seqPlay = true ∧
    (serviceSeq now st).1.seqBPM = st.seqBPM := by
  have h2 := advanceStep_clock
    ({ st with lastStepMs := st.lastStepMs + 60000 / st.seqBPM.toNat / 4 } : Sys)
  unfold serviceSeq
  rw [if_pos h1, if_pos hf]
  refine ⟨rfl, ?_, ?_, ?_⟩
  · exact h2.2.2
  · rw [← h1]; exact h2.1
  · exact h2.2.1

theorem serviceSeq_skip (now : ℕ) (st : Sys) (h1 : st.seqPlay = true)
    (hf : ¬ 60000 / st.seqBPM.toNat / 4 ≤ now - st.lastStepMs) :
    serviceSeq now st = (st, false) := by
  unfold serviceSeq
  rw [if_pos h1, if_neg hf]

theorem runService_invariant (es : List ℕ) :
    ∀ (st : Sys) (t : ℕ), st.seqPlay = true →
      st.lastStepMs ≤ t →
      t - st.lastStepMs < 60000 / st.seqBPM.toNat / 4 →
      (∀ e ∈ es, e ≤ 60000 / st.seqBPM.toNat / 4) →
      (runService st t es).1.seqPlay = true ∧
      (runService st t es).1.seqBPM = st.seqBPM ∧
      (runService st t es).1.lastStepMs
        = st.lastStepMs + (runService st t es).2 * (60000 / st.seqBPM.toNat / 4) ∧
      (runService st t es).1.lastStepMs ≤ t + es.sum ∧
      t + es.sum - (runService st t es).1.lastStepMs
        < 60000 / st.seqBPM.toNat / 4 := by
  induction es with
  | nil =>
      intro st t h1 h2 h3 _
      refine ⟨h1, rfl, by simp [runService], by simpa [runService] using h2, ?_⟩
      simpa [runService] using h3
  | cons e es ih =>
      intro st t h1 h2 h3 h5
      have he : e ≤ 60000 / st.seqBPM.toNat / 4 := h5 e (List.mem_cons_self e es)
      have h5' : ∀ x ∈ es, x ≤ 60000 / st.seqBPM.toNat / 4 :=
        fun x hx => h5 x (List.mem_cons_of_mem e hx)
      by_cases hf : 60000 / st.seqBPM.toNat / 4 ≤ (t + e) - st.lastStepMs
      · obtain ⟨hb1, hb2, hb3, hb4⟩ := serviceSeq_fire (t + e) st h1 hf
        set st1 := (serviceSeq (t + e) st).1 with hst1
        have ih' := ih st1 (t + e) hb3
          (by omega) (by rw [hb2, hb4]; omega)
          (by rw [hb4]; exact h5')
        have hrw : runService st t (e :: es)
            = ((runService st1 (t + e) es).1,
               1 + (runService st1 (t + e) es).2) := by
          simp [runService, ← hst1, hb1]
        rw [hrw]
        rw [hb4] at ih'
        refine ⟨ih'.1, ih'.2.1, ?_, ?_, ?_⟩
        · rw [ih'.2.2.1, hb2]; ring
        · have := ih'.2.2.2.1; simp only [List.sum_cons]; omega
        · have := ih'.2.2.2.2; simp only [List.sum_cons]; omega
      · have hskip := serviceSeq_skip (t + e) st h1 hf
        have ih' := ih st (t + e) h1 (by omega) (by omega) h5'
        have hrw : runService st t (e :: es)
            = ((runService st (t + e) es).1,
               0 + (runService st (t + e) es).2) := by
          simp [runService, hskip]
        rw [hrw]
        refine ⟨ih'.1, ih'.2.1, ?_, ?_, ?_⟩
        · rw [ih'.2.2.1]; ring_nf
        · have := ih'.2.2.2.1; simp only [List.sum_cons]; omega
        · have := ih'.2.2.2.2; simp only [List.sum_cons]; omega

/-- C1 (amended): starting from a just-started sequencer, any run of
service calls in which each individual gap is at most one step duration
and whose cumulative elapsed time is exactly `N × stepDuration` fires
exactly `N` steps, and the timing reference `lastStepMs` advances by
exactly one step duration per fired step (never resynchronised to
`now`). -/
theorem c1_drift_free_bounded_gaps (st : Sys) (t0 : ℕ) (es : List ℕ)
    (hplay : st.seqPlay = true) (hlast : st.lastStepMs = t0)
    (hbpmL : 40 ≤ st.seqBPM) (hbpmU : st.seqBPM ≤ 240)
    (hN : 1 ≤ es.length)
    (hspace : ∀ e ∈ es, e ≤ 60000 / st.seqBPM.toNat / 4)
    (hsum : es.sum = es.length * (60000 / st.seqBPM.toNat / 4)) :
    (runService st t0 es).2 = es.length ∧
    (runService st t0 es).1.lastStepMs
      = t0 + es.length * (60000 / st.seqBPM.toNat / 4) := by
  have hb1 : (40 : ℕ) ≤ st.seqBPM.toNat := by omega
  have hb2 : st.seqBPM.toNat ≤ 240 := by omega
  have hDpos : 0 < 60000 / st.seqBPM.toNat / 4 := by
    have h250 : 250 ≤ 60000 / st.seqBPM.toNat := by
      calc (250 : ℕ) = 60000 / 240 := by norm_num
        _ ≤ 60000 / st.seqBPM.toNat := Nat.div_le_div_left hb2 (by omega)
    omega
  obtain ⟨_, _, h3, h4, h5⟩ :=
    runService_invariant es st t0 hplay (by omega) (by omega) hspace
  set D := 60000 / st.seqBPM.toNat / 4 with hD
  set F := (runService st t0 es).2 with hF
  have hFN : F ≤ es.length := by
    have : F * D ≤ es.length * D := by omega
    exact Nat.le_of_mul_le_mul_right this hDpos
  have hNF : es.length ≤ F := by
    have hlt : (es.length - F) * D < 1 * D := by
      rw [Nat.sub_mul, one_mul]; omega
    have := Nat.lt_of_mul_lt_mul_right hlt
    omega
  have hFeq : F = es.length := le_antisymm hFN hNF
  exact ⟨hFeq, by rw [h3, hFeq, hlast]⟩

/-- C1 counterexample: with BPM 120 (step duration 125 ms), two service
calls spaced 0 ms and 250 ms apart have cumulative elapsed time exactly
2 × 125 ms, yet only ONE step trigger occurs, because each service call
fires at most one step.  The claim's "regardless of the spacing of the
individual iterations" is therefore false. -/
theorem c1_counterexample :
    startedSys.seqPlay = true ∧
    60000 / startedSys.seqBPM.toNat / 4 = 125 ∧
    ([0, 250] : List ℕ).sum = 2 * (60000 / startedSys.seqBPM.toNat / 4) ∧
    (runService startedSys 0 [0, 250]).2 = 1 := by decide

/-- C1 witness: two calls spaced exactly one step duration apart fire
exactly two steps and advance the reference by exactly two step
durations. -/
theorem c1_witness :
    (runService startedSys 0 [125, 125]).2 = 2 ∧
    (runService startedSys 0 [125, 125]).1.lastStepMs
      = 0 + 2 * (60000 / startedSys.seqBPM.toNat / 4) :=
  c1_drift_free_bounded_gaps startedSys 0 [125, 125] rfl rfl (by decide)
    (by decide) (by decide) (by decide) (by decide)

-- projection lemmas: the trigger/release operations leave both pattern
-- grids alone
theorem trigNote_melPat (i : Fin 5) (f : ℚ) (w : ℤ) (st : Sys) :
    (trigNote i f w st).melPat = st.melPat := rfl
theorem trigNote_drmPat (i : Fin 5) (f : ℚ) (w : ℤ) (st : Sys) :
    (trigNote i f w st).drmPat = st.drmPat := rfl
theorem releaseNote_melPat (i : Fin 5) (st : Sys) :
    (releaseNote i st).melPat = st.melPat := rfl
theorem releaseNote_drmPat (i : Fin 5) (st : Sys) :
    (releaseNote i st).drmPat = st.drmPat := rfl
theorem trigKick_melPat (st : Sys) : (trigKick st).melPat = st.melPat := rfl
theorem trigKick_drmPat (st : Sys) : (trigKick st).drmPat = st.drmPat := rfl
theorem trigSnare_melPat (st : Sys) : (trigSnare st).melPat = st.melPat := rfl
theorem trigSnare_drmPat (st : Sys) : (trigSnare st).drmPat = st.drmPat := rfl
theorem trigHat_melPat (st : Sys) : (trigHat st).melPat = st.melPat := rfl
theorem trigHat_drmPat (st : Sys) : (trigHat st).drmPat = st.drmPat := rfl

theorem trigStep_ch0 (st : Sys) (s : Fin 16) :
    (trigSequencerStep s st).ch 0
      = if (st.melPat 0 s).freq > 0
        then trigNoteCh (st.melPat 0 s).freq (st.melPat 0 s).wave
        else releaseCh (st.ch 0) := by
  simp only [trigSequencerStep, apply_ite Sys.melPat, apply_ite Sys.drmPat,
    trigNote_melPat, trigNote_drmPat, releaseNote_melPat, releaseNote_drmPat,
    trigKick_melPat, trigKick_drmPat, trigSnare_melPat, trigSnare_drmPat,
    trigHat_melPat, trigHat_drmPat, ite_self]
  split_ifs <;> rfl

theorem trigStep_ch1 (st : Sys) (s : Fin 16) :
    (trigSequencerStep s st).ch 1
      = if (st.melPat 1 s).freq > 0
        then trigNoteCh (st.melPat 1 s).freq (st.melPat 1 s).wave
        else releaseCh (st.ch 1) := by
  simp only [trigSequencerStep, apply_ite Sys.melPat, apply_ite Sys.drmPat,
    trigNote_melPat, trigNote_drmPat, releaseNote_melPat, releaseNote_drmPat,
    trigKick_melPat, trigKick_drmPat, trigSnare_melPat, trigSnare_drmPat,
    trigHat_melPat, trigHat_drmPat, ite_self]
  split_ifs <;> rfl

theorem trigStep_ch2 (st : Sys) (s : Fin 16) :
    (trigSequencerStep s st).ch 2
      = if st.drmPat 0 s then trigKickCh else st.ch 2 := by
  simp only [trigSequencerStep, apply_ite Sys.melPat, apply_ite Sys.drmPat,
    trigNote_melPat, trigNote_drmPat, releaseNote_melPat, releaseNote_drmPat,
    trigKick_melPat, trigKick_drmPat, trigSnare_melPat, trigSnare_drmPat,
    trigHat_melPat, trigHat_drmPat, ite_self]
  split_ifs <;> rfl

theorem trigStep_ch3 (st : Sys) (s : Fin 16) :
    (trigSequencerStep s st).ch 3
      = if st.drmPat 1 s then trigSnareCh (st.ch 3) else st.ch 3 := by
  simp only [trigSequencerStep, apply_ite Sys.melPat, apply_ite Sys.drmPat,
    trigNote_melPat, trigNote_drmPat, releaseNote_melPat, releaseNote_drmPat,
    trigKick_melPat, trigKick_drmPat, trigSnare_melPat, trigSnare_drmPat,
    trigHat_melPat, trigHat_drmPat, ite_self]
  split_ifs <;> rfl

theorem trigStep_nlfsr0 (st : Sys) (s : Fin 16) :
    (trigSequencerStep s st).nlfsr0
      = if st.drmPat 1 s then 0xACE1 else st.nlfsr0 := by
  simp only [trigSequencerStep, apply_ite Sys.melPat, apply_ite Sys.drmPat,
    trigNote_melPat, trigNote_drmPat, releaseNote_melPat, releaseNote_drmPat,
    trigKick_melPat, trigKick_drmPat, trigSnare_melPat, trigSnare_drmPat,
    trigHat_melPat, trigHat_drmPat, ite_self]
  split_ifs <;> rfl

theorem trigStep_ch4 (st : Sys) (s : Fin 16) :
    (trigSequencerStep s st).ch 4
      = if st.drmPat 2 s then trigHatCh (st.ch 4) else st.ch 4 := by
  simp only [trigSequencerStep, apply_ite Sys.melPat, apply_ite Sys.drmPat,
    trigNote_melPat, trigNote_drmPat, releaseNote_melPat, releaseNote_drmPat,
    trigKick_melPat, trigKick_drmPat, trigSnare_melPat, trigSnare_drmPat,
    trigHat_melPat, trigHat_drmPat, ite_self]
  split_ifs <;> rfl

theorem trigStep_nlfsr1 (st : Sys) (s : Fin 16) :
    (trigSequencerStep s st).nlfsr1
      = if st.drmPat 2 s then 0x9182 else st.nlfsr1 := by
  simp only [trigSequencerStep, apply_ite Sys.melPat, apply_ite Sys.drmPat,
    trigNote_melPat, trigNote_drmPat, releaseNote_melPat, releaseNote_drmPat,
    trigKick_melPat, trigKick_drmPat, trigSnare_melPat, trigSnare_drmPat,
    trigHat_melPat, trigHat_drmPat, ite_self]
  split_ifs <;> rfl

/-- C5 (amended): `trigSequencerStep s` triggers the Lead (channel 0) or
Bass (channel 1) exactly when the corresponding melodic step stores a
POSITIVE frequency and releases it otherwise, and fires the Kick, Snare
and Hat triggers exactly for the drum tracks whose hit flag is set at
step `s` (reseeding the respective noise register), leaving non-hit drum
channels untouched. -/
theorem c5_trigger_step (st : Sys) (s : Fin 16) :
    ((st.melPat 0 s).freq > 0 →
      (trigSequencerStep s st).ch 0
        = trigNoteCh (st.melPat 0 s).freq (st.melPat 0 s).wave) ∧
    (¬ (st.melPat 0 s).freq > 0 →
      (trigSequencerStep s st).ch 0 = releaseCh (st.ch 0)) ∧
    ((st.melPat 1 s).freq > 0 →
      (trigSequencerStep s st).ch 1
        = trigNoteCh (st.melPat 1 s).freq (st.melPat 1 s).wave) ∧
    (¬ (st.melPat 1 s).freq > 0 →
      (trigSequencerStep s st).ch 1 = releaseCh (st.ch 1)) ∧
    (st.drmPat 0 s = true → (trigSequencerStep s st).ch 2 = trigKickCh) ∧
    (st.drmPat 0 s = false → (trigSequencerStep s st).ch 2 = st.ch 2) ∧
    (st.drmPat 1 s = true →
      (trigSequencerStep s st).ch 3 = trigSnareCh (st.ch 3) ∧
      (trigSequencerStep s st).nlfsr0 = 0xACE1) ∧
    (st.drmPat 1 s = false →
      (trigSequencerStep s st).ch 3 = st.ch 3 ∧
      (trigSequencerStep s st).nlfsr0 = st.nlfsr0) ∧
    (st.drmPat 2 s = true →
      (trigSequencerStep s st).ch 4 = trigHatCh (st.ch 4) ∧
      (trigSequencerStep s st).nlfsr1 = 0x9182) ∧
    (st.drmPat 2 s = false →
      (trigSequencerStep s st).ch 4 = st.ch 4 ∧
      (trigSequencerStep s st).nlfsr1 = st.nlfsr1) := by
  refine ⟨fun h => ?_, fun h => ?_, fun h => ?_, fun h => ?_, fun h => ?_,
    fun h => ?_, fun h => ?_, fun h => ?_, fun h => ?_, fun h => ?_⟩
  · rw [trigStep_ch0, if_pos h]
  · rw [trigStep_ch0, if_neg h]
  · rw [trigStep_ch1, if_pos h]
  · rw [trigStep_ch1, if_neg h]
  · rw [trigStep_ch2, if_pos h]
  · rw [trigStep_ch2, if_neg (by simp [h])]
  · rw [trigStep_ch3, trigStep_nlfsr0, if_pos h, if_pos h]; exact ⟨rfl, rfl⟩
  · rw [trigStep_ch3, trigStep_nlfsr0, if_neg (by simp [h]), if_neg (by simp [h])]
    exact ⟨rfl, rfl⟩
  · rw [trigStep_ch4, trigStep_nlfsr1, if_pos h, if_pos h]; exact ⟨rfl, rfl⟩
  · rw [trigStep_ch4, trigStep_nlfsr1, if_neg (by simp [h]), if_neg (by simp [h])]
    exact ⟨rfl, rfl⟩

/-- C5 counterexample: a stored melodic frequency of -1 is nonzero, yet
`trigSequencerStep` RELEASES the Lead channel (the code tests
`freq > 0.0f`, not `freq != 0`), refuting "triggers ... if and only if
that track's step s has a nonzero stored frequency". -/
theorem c5_counterexample :
    (negFreqSys.melPat 0 0).freq ≠ 0 ∧
    ((trigSequencerStep 0 negFreqSys).ch 0).active = false ∧
    ((trigSequencerStep 0 negFreqSys).ch 0).envLvl = 0 := by decide

/-- C5 witness at a concrete pattern: 440 Hz on Lead step 0 triggers the
Lead, the Kick hit fires, and the Snare channel is untouched. -/
theorem c5_witness :
    (trigSequencerStep 0 noteKickSys).ch 0 = trigNoteCh 440 0 ∧
    (trigSequencerStep 0 noteKickSys).ch 2 = trigKickCh ∧
    (trigSequencerStep 0 noteKickSys).ch 3 = noteKickSys.ch 3 := by
  have h := c5_trigger_step noteKickSys 0
  exact ⟨h.1 (by decide), h.2.2.2.2.1 (by decide),
    (h.2.2.2.2.2.2.2.1 (by decide)).1⟩

-- C6 helper lemmas
theorem applyTrig_env (t : TrigOp) (s : Channel × ℕ) :
    (applyTrig t s).1.envLvl = 1 ∧ EnvInv (applyTrig t s).1 := by
  cases t with
  | note f w =>
      exact ⟨rfl, show (0:ℚ) ≤ 1 by decide, show (0:ℚ) ≤ 0.9998 by decide,
        show (0.9998:ℚ) ≤ 1 by decide⟩
  | kick =>
      exact ⟨rfl, show (0:ℚ) ≤ 1 by decide, show (0:ℚ) ≤ 0.9997 by decide,
        show (0.9997:ℚ) ≤ 1 by decide⟩
  | snare =>
      exact ⟨rfl, show (0:ℚ) ≤ 1 by decide, show (0:ℚ) ≤ 0.9988 by decide,
        show (0.9988:ℚ) ≤ 1 by decide⟩
  | hat =>
      exact ⟨rfl, show (0:ℚ) ≤ 1 by decide, show (0:ℚ) ≤ 0.9970 by decide,
        show (0.9970:ℚ) ≤ 1 by decide⟩

theorem applySynthOp_env (gA : ℤ) (op : SynthOp) (s : Channel × ℕ)
    (h : EnvInv s.1) :
    (applySynthOp gA op s).1.envLvl ≤ s.1.envLvl ∧
    EnvInv (applySynthOp gA op s).1 := by
  obtain ⟨h0, hd0, hd1⟩ := h
  cases op with
  | render =>
      simp only [applySynthOp, synthSampleCh, EnvInv]
      split_ifs <;>
        first
          | exact ⟨le_refl _, h0, hd0, hd1⟩
          | exact ⟨mul_le_of_le_one_right h0 hd1, mul_nonneg h0 hd0, hd0, hd1⟩
  | release => exact ⟨h0, le_refl 0, hd0, hd1⟩

theorem runOps_append (gA : ℤ) (l1 l2 : List SynthOp) :
    ∀ s : Channel × ℕ, runOps gA (l1 ++ l2) s = runOps gA l2 (runOps gA l1 s) := by
  induction l1 with
  | nil => intro s; rfl
  | cons op ops ih => intro s; exact ih (applySynthOp gA op s)

theorem runOps_env (gA : ℤ) (ops : List SynthOp) :
    ∀ s : Channel × ℕ, EnvInv s.1 →
      EnvInv (runOps gA ops s).1 ∧ (runOps gA ops s).1.envLvl ≤ s.1.envLvl := by
  induction ops with
  | nil => intro s h; exact ⟨h, le_refl _⟩
  | cons op ops ih =>
      intro s h
      obtain ⟨hle, hinv⟩ := applySynthOp_env gA op s h
      obtain ⟨hinv2, hle2⟩ := ih _ hinv
      exact ⟨hinv2, le_trans hle2 hle⟩

/-- C6: every trigger operation sets `envLvl` to exactly 1.0, and along
any subsequent run of `synthSample` renders and `releaseNote`s (i.e.
until the next trigger) the envelope level never rises: appending one
more operation never increases it. -/
theorem c6_envelope_nonincreasing (gA : ℤ) (t : TrigOp) (s : Channel × ℕ)
    (ops : List SynthOp) (op : SynthOp) :
    (applyTrig t s).1.envLvl = 1 ∧
    (runOps gA (ops ++ [op]) (applyTrig t s)).1.envLvl
      ≤ (runOps gA ops (applyTrig t s)).1.envLvl := by
  obtain ⟨h1, hinv⟩ := applyTrig_env t s
  refine ⟨h1, ?_⟩
  rw [runOps_append]
  exact (applySynthOp_env gA op _ (runOps_env gA ops _ hinv).1).1

-- C2 helper lemmas: a silent engine renders exact zeros
theorem synthSampleCh_inactive (gA : ℤ) (c : Channel) (reg : ℕ)
    (h : c.active = false) : synthSampleCh gA c reg = (c, reg, 0) := by
  obtain ⟨p, f, w, e, d, a, n, m⟩ := c
  simp only at h
  subst h
  simp [synthSampleCh]

theorem synthSample_silent (i : Fin 5) (st : Sys) (h : Silent st) :
    synthSample i st = (st, 0) := by
  by_cases hi : i.val = 3 <;>
    simp [synthSample, synthSampleCh_inactive _ _ _ (h i), hi,
      Function.update_eq_self]

theorem mixChannels_silent (l : List (Fin 5)) (st : Sys) (h : Silent st) :
    mixChannels l st = (st, 0) := by
  induction l with
  | nil => rfl
  | cons i is ih => simp [mixChannels, synthSample_silent i st h, ih]

theorem mixFrame_silent (st : Sys) (h : Silent st) : mixFrame st = (st, 0) := by
  simp [mixFrame, mixChannels_silent _ _ h]
  decide

theorem trigStep_melPat (st : Sys) (s : Fin 16) :
    (trigSequencerStep s st).melPat = st.melPat := by
  simp only [trigSequencerStep, apply_ite Sys.melPat, apply_ite Sys.drmPat,
    trigNote_melPat, trigNote_drmPat, releaseNote_melPat, releaseNote_drmPat,
    trigKick_melPat, trigKick_drmPat, trigSnare_melPat, trigSnare_drmPat,
    trigHat_melPat, trigHat_drmPat, ite_self]

theorem trigStep_drmPat (st : Sys) (s : Fin 16) :
    (trigSequencerStep s st).drmPat = st.drmPat := by
  simp only [trigSequencerStep, apply_ite Sys.melPat, apply_ite Sys.drmPat,
    trigNote_melPat, trigNote_drmPat, releaseNote_melPat, releaseNote_drmPat,
    trigKick_melPat, trigKick_drmPat, trigSnare_melPat, trigSnare_drmPat,
    trigHat_melPat, trigHat_drmPat, ite_self]

theorem trigStep_allRest (st : Sys) (s : Fin 16) (hr : AllRest st) (hs : Silent st) :
    Silent (trigSequencerStep s st) ∧ AllRest (trigSequencerStep s st) := by
  constructor
  · intro i
    fin_cases i
    · rw [show ((⟨0, by omega⟩ : Fin 5)) = (0 : Fin 5) from rfl, trigStep_ch0,
        if_neg (by rw [hr.1 0 s]; exact lt_irrefl 0)]
      rfl
    · rw [show ((⟨1, by omega⟩ : Fin 5)) = (1 : Fin 5) from rfl, trigStep_ch1,
        if_neg (by rw [hr.1 1 s]; exact lt_irrefl 0)]
      rfl
    · rw [show ((⟨2, by omega⟩ : Fin 5)) = (2 : Fin 5) from rfl, trigStep_ch2,
        if_neg (by simp [hr.2 0 s])]
      exact hs 2
    · rw [show ((⟨3, by omega⟩ : Fin 5)) = (3 : Fin 5) from rfl, trigStep_ch3,
        if_neg (by simp [hr.2 1 s])]
      exact hs 3
    · rw [show ((⟨4, by omega⟩ : Fin 5)) = (4 : Fin 5) from rfl, trigStep_ch4,
        if_neg (by simp [hr.2 2 s])]
      exact hs 4
  · exact ⟨by rw [trigStep_melPat]; exact hr.1, by rw [trigStep_drmPat]; exact hr.2⟩

theorem renderFrames_silent (n : ℕ) (st : Sys) (h : Silent st) :
    renderFrames n st = (st, List.replicate n 0) := by
  induction n with
  | zero => rfl
  | succ m ih => simp [renderFrames, mixFrame_silent st h, ih, List.replicate_succ]

theorem renderStepsList_silent (sps : ℕ) (l : List (Fin 16)) :
    ∀ st : Sys, Silent st → AllRest st →
      (renderStepsList l sps st).2 = List.replicate (l.length * sps) 0 ∧
      Silent (renderStepsList l sps st).1 ∧
      AllRest (renderStepsList l sps st).1 := by
  induction l with
  | nil => intro st h1 h2; exact ⟨by simp [renderStepsList], h1, h2⟩
  | cons s ss ih =>
      intro st h1 h2
      obtain ⟨hS, hR⟩ := trigStep_allRest st s h2 h1
      have hren := renderFrames_silent sps (trigSequencerStep s st) hS
      obtain ⟨ih1, ih2, ih3⟩ := ih (trigSequencerStep s st) hS hR
      constructor
      · simp only [renderStepsList, hren, ih1]
        rw [← List.replicate_add]
        congr 1
        rw [List.length_cons]
        ring
      · constructor
        · simp only [renderStepsList, hren]; exact ih2
        · simp only [renderStepsList, hren]; exact ih3

theorem renderLoops_silent (sps : ℕ) (n : ℕ) :
    ∀ st : Sys, Silent st → AllRest st →
      (renderLoops n sps st).2 = List.replicate (n * (16 * sps)) 0 := by
  induction n with
  | zero => intro st _ _; simp [renderLoops]
  | succ m ih =>
      intro st h1 h2
      obtain ⟨hl1, hl2, hl3⟩ :=
        renderStepsList_silent sps (List.finRange 16) st h1 h2
      simp only [renderLoops, hl1, ih _ hl2 hl3]
      rw [List.length_finRange, ← List.replicate_add]
      congr 1
      ring

theorem framesBytes_zeros (n : ℕ) :
    framesBytes (List.replicate n 0) = List.replicate (4 * n) 0 := by
  induction n with
  | zero => rfl
  | succ m ih =>
      rw [List.replicate_succ, show framesBytes ((0:ℤ) :: List.replicate m 0)
          = 0 :: 0 :: 0 :: 0 :: framesBytes (List.replicate m 0) from rfl, ih,
        show 4 * (m + 1) = (4 * m) + 4 by ring]
      simp [List.replicate_add, List.replicate_succ]

theorem wavHeader_length (t : ℕ) : (wavHeader t).length = 44 := rfl

/-- C2: exporting a pattern in which every melodic step is a rest
(frequency 0) and every drum step is off, with BPM in `[40, 240]` and
`L ≥ 1` loops, produces exactly `44 + 4 × samplesPerStep × 16 × L`
bytes, and every byte after the 44-byte WAV header is zero. -/
theorem c2_silent_export (st : Sys) (L : ℕ) (_hL : 1 ≤ L)
    (_hbL : 40 ≤ st.seqBPM) (_hbU : st.seqBPM ≤ 240)
    (hmel : ∀ (t : Fin 2) (s : Fin 16), (st.melPat t s).freq = 0)
    (hdrm : ∀ (t : Fin 3) (s : Fin 16), st.drmPat t s = false) :
    ∃ bs, (exportPatternToWAV true true st L).1 = some bs ∧
      bs.length = 44 + 4 * samplesPerStep st.seqBPM * 16 * L ∧
      ∀ b ∈ bs.drop 44, b = 0 := by
  have hsil : Silent ({ st with ch := fun _ => {} } : Sys) := fun i => rfl
  have hrest : AllRest ({ st with ch := fun _ => {} } : Sys) := ⟨hmel, hdrm⟩
  have hsam : (exportSamples st L).2
      = List.replicate (L * (16 * samplesPerStep st.seqBPM)) 0 :=
    renderLoops_silent (samplesPerStep st.seqBPM) L _ hsil hrest
  refine ⟨wavHeader (samplesPerStep st.seqBPM * 16 * L)
    ++ List.replicate (4 * (L * (16 * samplesPerStep st.seqBPM))) 0, ?_, ?_, ?_⟩
  · have e1 : (exportPatternToWAV true true st L).1
        = some (wavHeader (samplesPerStep st.seqBPM * 16 * L)
            ++ framesBytes (exportSamples st L).2) := by
      unfold exportPatternToWAV
      rw [if_neg (by decide), if_neg (by decide)]
    rw [e1, hsam, framesBytes_zeros]
  · rw [List.length_append, wavHeader_length, List.length_replicate]
    ring
  · intro b hb
    rw [show (44 : ℕ) = (wavHeader (samplesPerStep st.seqBPM * 16 * L)).length
        from rfl, List.drop_left] at hb
    exact List.eq_of_mem_replicate hb

/-- C2 witness: the startup state (all-rest pattern, BPM 120) exported
with two loops. -/
theorem c2_witness :
    ∃ bs, (exportPatternToWAV true true init 2).1 = some bs ∧
      bs.length = 44 + 4 * samplesPerStep init.seqBPM * 16 * 2 ∧
      ∀ b ∈ bs.drop 44, b = 0 :=
  c2_silent_export init 2 (by decide) (by decide) (by decide)
    (fun _ _ => rfl) (fun _ _ => rfl)


-- C3 helper lemmas
theorem qtrunc_le (x : ℚ) (b : ℤ) (h : x ≤ (b : ℚ)) : qtrunc x ≤ b := by
  unfold qtrunc
  split_ifs
  · exact le_trans (Int.floor_le_floor h) (by simp)
  · exact le_trans (Int.ceil_le_ceil h) (by simp)

theorem qtrunc_ge (x : ℚ) (b : ℤ) (h : (b : ℚ) ≤ x) : b ≤ qtrunc x := by
  unfold qtrunc
  split_ifs
  · exact le_trans (by simp) (Int.floor_le_floor h)
  · exact le_trans (by simp) (Int.ceil_le_ceil h)

theorem i16_bounds_of (v : ℤ) (h1 : -6000 ≤ v) (h2 : v ≤ 6000) :
    -6000 ≤ i16 v ∧ i16 v ≤ 6000 := by
  unfold i16
  omega

/-- Bound on one channel's output value: whenever the envelope level is
in `[0,1]` and the oscillator phase is within one cycle, the sample
magnitude is at most `gAmp / 5` (so at most 6000 at full volume). -/
theorem synthVal_bound (gA : ℤ) (c : Channel) (reg : ℕ)
    (hg0 : 0 ≤ gA) (hg1 : gA ≤ 30000)
    (he0 : 0 ≤ c.envLvl) (he1 : c.envLvl ≤ 1)
    (hp0 : 0 ≤ c.phase) (hp1 : c.phase ≤ 2 * piF) :
    -6000 ≤ (synthSampleCh gA c reg).2.2 ∧
    (synthSampleCh gA c reg).2.2 ≤ 6000 := by
  have hgq : ((gA : ℚ)) ≤ 30000 := by exact_mod_cast hg1
  have hgq0 : (0 : ℚ) ≤ (gA : ℚ) := by exact_mod_cast hg0
  have hdiv0 : (0 : ℚ) ≤ (gA : ℚ) / 5 := by positivity
  have hdiv1 : (gA : ℚ) / 5 ≤ 6000 := by linarith
  have hAq0 : (0 : ℚ) ≤ (gA : ℚ) / 5 * c.envLvl := mul_nonneg hdiv0 he0
  have hAq1 : (gA : ℚ) / 5 * c.envLvl ≤ 6000 :=
    le_trans (mul_le_of_le_one_right hdiv0 he1) hdiv1
  have hA0 : 0 ≤ qtrunc ((gA : ℚ) / 5 * c.envLvl) :=
    qtrunc_ge _ 0 (by exact_mod_cast hAq0)
  have hA1 : qtrunc ((gA : ℚ) / 5 * c.envLvl) ≤ 6000 :=
    qtrunc_le _ 6000 (by exact_mod_cast hAq1)
  have h2pi : (0 : ℚ) < 2 * piF := by decide
  have hfr0 : (0 : ℚ) ≤ c.phase / (2 * piF) := div_nonneg hp0 (le_of_lt h2pi)
  have hfr1 : c.phase / (2 * piF) ≤ 1 := (div_le_one h2pi).mpr hp1
  have hAc0 : (0 : ℚ) ≤ ((qtrunc ((gA : ℚ) / 5 * c.envLvl) : ℤ) : ℚ) := by
    exact_mod_cast hA0
  have hAc1 : ((qtrunc ((gA : ℚ) / 5 * c.envLvl) : ℤ) : ℚ) ≤ 6000 := by
    exact_mod_cast hA1
  have hsawU : (c.phase / (2 * piF) * 2 - 1)
      * ((qtrunc ((gA : ℚ) / 5 * c.envLvl) : ℤ) : ℚ)
      ≤ ((6000 : ℤ) : ℚ) := by
    have := mul_le_of_le_one_left hAc0 (by linarith :
      c.phase / (2 * piF) * 2 - 1 ≤ 1)
    push_cast
    nlinarith [mul_le_mul_of_nonneg_right
      (by linarith : c.phase / (2 * piF) * 2 - 1 ≤ 1) hAc0]
  have hsawL : ((-6000 : ℤ) : ℚ) ≤ (c.phase / (2 * piF) * 2 - 1)
      * ((qtrunc ((gA : ℚ) / 5 * c.envLvl) : ℤ) : ℚ) := by
    push_cast
    nlinarith [mul_le_mul_of_nonneg_right
      (by linarith : (-1 : ℚ) ≤ c.phase / (2 * piF) * 2 - 1) hAc0]
  have hsaw : -6000 ≤ qtrunc ((c.phase / (2 * piF) * 2 - 1)
      * ((qtrunc ((gA : ℚ) / 5 * c.envLvl) : ℤ) : ℚ)) ∧
      qtrunc ((c.phase / (2 * piF) * 2 - 1)
      * ((qtrunc ((gA : ℚ) / 5 * c.envLvl) : ℤ) : ℚ)) ≤ 6000 :=
    ⟨qtrunc_ge _ _ hsawL, qtrunc_le _ _ (by exact_mod_cast hsawU)⟩
  simp only [synthSampleCh]
  split_ifs <;>
    first
      | exact i16_bounds_of _ (by omega) (by omega)
      | exact i16_bounds_of _ hsaw.1 hsaw.2
      | (constructor <;> norm_num)

theorem synthSample_ch_other (i j : Fin 5) (st : Sys) (h : j ≠ i) :
    (synthSample i st).1.ch j = st.ch j := by
  simp [synthSample, Function.update_noteq h]

theorem synthSample_gAmp (i : Fin 5) (st : Sys) :
    (synthSample i st).1.gAmp = st.gAmp := rfl

theorem synthSample_val (i : Fin 5) (st : Sys) :
    (synthSample i st).2
      = (synthSampleCh st.gAmp (st.ch i)
          (if i.val = 3 then st.nlfsr0 else st.nlfsr1)).2.2 := rfl

/-- C3 (amended): in any state whose five channels all carry an envelope
level in `[0, 1]` and an oscillator phase within one cycle `[0, 2π]`
(the ranges every trigger establishes and rendering maintains at
in-range frequencies), and whose global amplitude lies in `[0, 30000]`,
the pre-clamp five-channel mix sum lies in `[-32767, 32767]`, so the
hard-clamp branch never alters the value. -/
theorem c3_mix_within_range (st : Sys) (hg0 : 0 ≤ st.gAmp)
    (hg1 : st.gAmp ≤ 30000)
    (hch : ∀ i : Fin 5, 0 ≤ (st.ch i).envLvl ∧ (st.ch i).envLvl ≤ 1 ∧
      0 ≤ (st.ch i).phase ∧ (st.ch i).phase ≤ 2 * piF) :
    -32767 ≤ mixSum st ∧ mixSum st ≤ 32767 ∧
    constrainZ (mixSum st) (-32767) 32767 = mixSum st := by
  set st1 := (synthSample 0 st).1 with hst1
  set st2 := (synthSample 1 st1).1 with hst2
  set st3 := (synthSample 2 st2).1 with hst3
  set st4 := (synthSample 3 st3).1 with hst4
  have hg1amp : st1.gAmp = st.gAmp := rfl
  have hg2amp : st2.gAmp = st.gAmp := rfl
  have hg3amp : st3.gAmp = st.gAmp := rfl
  have hg4amp : st4.gAmp = st.gAmp := rfl
  have hch1 : st1.ch 1 = st.ch 1 := synthSample_ch_other 0 1 st (by decide)
  have hch2 : st2.ch 2 = st.ch 2 := by
    rw [hst2, synthSample_ch_other 1 2 st1 (by decide), hst1,
      synthSample_ch_other 0 2 st (by decide)]
  have hch3 : st3.ch 3 = st.ch 3 := by
    rw [hst3, synthSample_ch_other 2 3 st2 (by decide), hst2,
      synthSample_ch_other 1 3 st1 (by decide), hst1,
      synthSample_ch_other 0 3 st (by decide)]
  have hch4 : st4.ch 4 = st.ch 4 := by
    rw [hst4, synthSample_ch_other 3 4 st3 (by decide), hst3,
      synthSample_ch_other 2 4 st2 (by decide), hst2,
      synthSample_ch_other 1 4 st1 (by decide), hst1,
      synthSample_ch_other 0 4 st (by decide)]
  have hm : mixSum st
      = (synthSample 0 st).2 + ((synthSample 1 st1).2
      + ((synthSample 2 st2).2 + ((synthSample 3 st3).2
      + ((synthSample 4 st4).2 + 0)))) := rfl
  have b0 := synthVal_bound st.gAmp (st.ch 0) st.nlfsr1 hg0 hg1
    (hch 0).1 (hch 0).2.1 (hch 0).2.2.1 (hch 0).2.2.2
  have b1 := synthVal_bound st.gAmp (st.ch 1) st1.nlfsr1 hg0 hg1
    (hch 1).1 (hch 1).2.1 (hch 1).2.2.1 (hch 1).2.2.2
  have b2 := synthVal_bound st.gAmp (st.ch 2) st2.nlfsr1 hg0 hg1
    (hch 2).1 (hch 2).2.1 (hch 2).2.2.1 (hch 2).2.2.2
  have b3 := synthVal_bound st.gAmp (st.ch 3) st3.nlfsr0 hg0 hg1
    (hch 3).1 (hch 3).2.1 (hch 3).2.2.1 (hch 3).2.2.2
  have b4 := synthVal_bound st.gAmp (st.ch 4) st4.nlfsr1 hg0 hg1
    (hch 4).1 (hch 4).2.1 (hch 4).2.2.1 (hch 4).2.2.2
  have e0 : (synthSample 0 st).2
      = (synthSampleCh st.gAmp (st.ch 0) st.nlfsr1).2.2 := rfl
  have e1 : (synthSample 1 st1).2
      = (synthSampleCh st.gAmp (st.ch 1) st1.nlfsr1).2.2 := by
    rw [synthSample_val, hg1amp, hch1]; rfl
  have e2 : (synthSample 2 st2).2
      = (synthSampleCh st.gAmp (st.ch 2) st2.nlfsr1).2.2 := by
    rw [synthSample_val, hg2amp, hch2]; rfl
  have e3 : (synthSample 3 st3).2
      = (synthSampleCh st.gAmp (st.ch 3) st3.nlfsr0).2.2 := by
    rw [synthSample_val, hg3amp, hch3]; rfl
  have e4 : (synthSample 4 st4).2
      = (synthSampleCh st.gAmp (st.ch 4) st4.nlfsr1).2.2 := by
    rw [synthSample_val, hg4amp, hch4]; rfl
  rw [hm, e0, e1, e2, e3, e4]
  refine ⟨by omega, by omega, ?_⟩
  unfold constrainZ
  split_ifs <;> omega

/-- C3 counterexample: with both melodic channels in a saw state whose
phase has escaped one cycle (reachable via an unclamped live `PLAY:`
frequency above the sample rate), the per-channel magnitude exceeds
`gAmp / 5 × envelopeLevel` (18000 instead of at most 6000 each, with
envelope exactly 1), the pre-clamp sum is 36000 ∉ [-32767, 32767], and
the hard clamp DOES alter the value. -/
theorem c3_counterexample :
    0 ≤ sawRunawaySys.gAmp ∧ sawRunawaySys.gAmp ≤ 30000 ∧
    (sawRunawaySys.ch 0).envLvl = 1 ∧
    mixSum sawRunawaySys = 36000 ∧
    constrainZ (mixSum sawRunawaySys) (-32767) 32767 ≠ mixSum sawRunawaySys := by
  decide

/-- C3 witness: the startup state at full volume (gAmp raised to 30000)
satisfies the channel invariants, so the clamp is the identity there. -/
theorem c3_witness :
    -32767 ≤ mixSum { init with gAmp := 30000 } ∧
    mixSum { init with gAmp := 30000 } ≤ 32767 ∧
    constrainZ (mixSum { init with gAmp := 30000 }) (-32767) 32767
      = mixSum { init with gAmp := 30000 } :=
  c3_mix_within_range { init with gAmp := 30000 } (by decide) (by decide)
    (fun _ => ⟨show (0:ℚ) ≤ 0 by decide, show (0:ℚ) ≤ 1 by decide,
      show (0:ℚ) ≤ 0 by decide, show (0:ℚ) ≤ 2 * piF by decide⟩)

-- C4 helper lemmas
set_option exponentiation.threshold 5000 in
theorem kick_env_pow_bound : (1/1000 : ℚ) ≤ (9997/10000)^2106 := by
  rw [div_pow, div_le_div_iff₀ (by norm_num) (by positivity)]
  have hN : (10000:ℕ)^2106 ≤ 9997^2106 * 1000 := by
    set_option maxRecDepth 10000 in decide
  calc (1:ℚ) * 10000^2106 = ((10000^2106 : ℕ) : ℚ) := by push_cast; ring
    _ ≤ ((9997^2106 * 1000 : ℕ) : ℚ) := by exact_mod_cast hN
    _ = (9997:ℚ)^2106 * 1000 := by push_cast; ring

set_option exponentiation.threshold 5000 in
theorem kick_freq_pow_bound : 200 * (9991/10000 : ℚ)^2107 ≤ 30 := by
  rw [div_pow, mul_div_assoc', div_le_iff₀ (by positivity)]
  have hN : 200 * (9991:ℕ)^2107 ≤ 30 * 10000^2107 := by
    set_option maxRecDepth 10000 in decide
  calc (200:ℚ) * 9991^2107 = ((200 * 9991^2107 : ℕ) : ℚ) := by push_cast; ring
    _ ≤ ((30 * 10000^2107 : ℕ) : ℚ) := by exact_mod_cast hN
    _ = 30 * (10000:ℚ)^2107 := by push_cast; ring

theorem synthSampleCh_pm (gA : ℤ) (c : Channel) (r : ℕ) :
    (synthSampleCh gA c r).1.pitchMul = c.pitchMul ∧
    (synthSampleCh gA c r).1.isNoise = c.isNoise ∧
    (synthSampleCh gA c r).1.envDcy = c.envDcy := by
  simp only [synthSampleCh]
  split_ifs <;> exact ⟨rfl, rfl, rfl⟩

theorem kickRenderStep (gA : ℤ) (c : Channel)
    (ha : c.active = true) (hn : c.isNoise = false)
    (hq : c.pitchMul = 9991/10000)
    (he : ¬ c.envLvl < 1/1000) :
    (synthSampleCh gA c 0).1.curFreq
      = (if c.curFreq * (9991/10000) < 30 then 30
         else c.curFreq * (9991/10000)) ∧
    (synthSampleCh gA c 0).1.envLvl = c.envLvl * c.envDcy ∧
    (synthSampleCh gA c 0).1.active = true := by
  have hq1 : c.pitchMul ≠ 1 := by rw [hq]; decide
  simp only [synthSampleCh]
  rw [if_neg (by push_neg; exact ⟨by simp [ha], not_lt.mp he⟩), if_neg (by simp [hn])]
  refine ⟨?_, rfl, ha⟩
  show (if c.pitchMul ≠ 1 then
          (if c.curFreq * c.pitchMul < 30 then 30 else c.curFreq * c.pitchMul)
        else c.curFreq) = _
  rw [if_pos hq1, hq]

theorem kick_closed_form (gA : ℤ) :
    ∀ n, n ≤ 2107 →
      (chIter gA n trigKickCh).curFreq
        = max 30 (200 * (9991/10000 : ℚ)^n) ∧
      (chIter gA n trigKickCh).envLvl = (9997/10000 : ℚ)^n ∧
      (chIter gA n trigKickCh).active = true ∧
      (chIter gA n trigKickCh).isNoise = false ∧
      (chIter gA n trigKickCh).pitchMul = 9991/10000 ∧
      (chIter gA n trigKickCh).envDcy = 9997/10000 := by
  intro n
  induction n with
  | zero =>
      intro _
      refine ⟨?_, ?_, rfl, rfl, rfl, rfl⟩
      · show (200:ℚ) = max 30 (200 * (9991/10000)^0)
        rw [pow_zero, mul_one]
        exact (max_eq_right (by norm_num)).symm
      · show (1:ℚ) = (9997/10000)^0
        rw [pow_zero]
  | succ m ih =>
      intro hm
      obtain ⟨hf, he, ha, hn, hp, hd⟩ := ih (by omega)
      have hgate : ¬ (chIter gA m trigKickCh).envLvl < 1/1000 := by
        rw [he]
        have h1 : (9997/10000:ℚ)^2106 ≤ (9997/10000)^m :=
          pow_le_pow_of_le_one (by decide) (by decide) (by omega)
        exact not_lt.mpr (le_trans kick_env_pow_bound h1)
      have hstep := kickRenderStep gA (chIter gA m trigKickCh) ha hn hp hgate
      have hpm := synthSampleCh_pm gA (chIter gA m trigKickCh) 0
      refine ⟨?_, ?_, hstep.2.2, by rw [show chIter gA (m+1) trigKickCh
          = (synthSampleCh gA (chIter gA m trigKickCh) 0).1 from rfl,
          hpm.2.1, hn], by rw [show chIter gA (m+1) trigKickCh
          = (synthSampleCh gA (chIter gA m trigKickCh) 0).1 from rfl,
          hpm.1, hp], by rw [show chIter gA (m+1) trigKickCh
          = (synthSampleCh gA (chIter gA m trigKickCh) 0).1 from rfl,
          hpm.2.2, hd]⟩
      · show (synthSampleCh gA (chIter gA m trigKickCh) 0).1.curFreq = _
        rw [hstep.1, hf]
        have hqpos : (0:ℚ) < (9991/10000 : ℚ)^m := by positivity
        rcases le_or_lt (200 * (9991/10000:ℚ)^m) 30 with hle | hlt
        · rw [max_eq_left hle, if_pos (by decide : (30:ℚ) * (9991/10000) < 30)]
          have hnext : 200 * (9991/10000:ℚ)^(m+1) ≤ 30 := by
            have : (9991/10000:ℚ)^(m+1) ≤ (9991/10000)^m :=
              pow_le_pow_of_le_one (by decide) (by decide) (by omega)
            nlinarith
          rw [max_eq_left hnext]
        · rw [max_eq_right hlt.le, pow_succ]
          rcases lt_or_le (200 * (9991/10000:ℚ)^m * (9991/10000)) 30 with h30 | h30
          · rw [if_pos h30]
            have : 200 * ((9991/10000:ℚ)^m * (9991/10000)) < 30 := by
              rw [← mul_assoc]; exact h30
            rw [max_eq_left this.le]
          · rw [if_neg (not_lt.mpr h30)]
            have : (30:ℚ) ≤ 200 * ((9991/10000:ℚ)^m * (9991/10000)) := by
              rw [← mul_assoc]; exact h30
            rw [max_eq_right this]
            ring
      · show (synthSampleCh gA (chIter gA m trigKickCh) 0).1.envLvl = _
        rw [hstep.2.1, he, hd, pow_succ]

theorem kickFreq30_step (gA : ℤ) (c : Channel)
    (h30 : c.curFreq = 30) (hp : c.pitchMul = 9991/10000) :
    (synthSampleCh gA c 0).1.curFreq = 30 := by
  have hq1 : c.pitchMul ≠ 1 := by rw [hp]; decide
  simp only [synthSampleCh]
  split_ifs <;>
    first
      | exact h30
      | rfl
      | exact absurd hq1 (by assumption)
      | exact absurd (show c.curFreq * c.pitchMul < 30 by rw [h30, hp]; decide)
          (by assumption)

theorem chIter_pm (gA : ℤ) : ∀ n,
    (chIter gA n trigKickCh).pitchMul = 9991/10000 := by
  intro n
  induction n with
  | zero => rfl
  | succ m ih =>
      rw [show chIter gA (m+1) trigKickCh
        = (synthSampleCh gA (chIter gA m trigKickCh) 0).1 from rfl,
        (synthSampleCh_pm gA _ 0).1, ih]

theorem kickFreq_persist (gA : ℤ) (n : ℕ) (h : kickFreq gA n = 30) :
    ∀ m, kickFreq gA (n + m) = 30 := by
  intro m
  induction m with
  | zero => exact h
  | succ k ih =>
      rw [show n + (k + 1) = (n + k) + 1 from rfl]
      unfold kickFreq
      rw [show chIter gA (n + k + 1) trigKickCh
        = (synthSampleCh gA (chIter gA (n + k) trigKickCh) 0).1 from rfl]
      exact kickFreq30_step gA _ ih (chIter_pm gA (n + k))

theorem kick_reaches_floor (gA : ℤ) (n : ℕ) (hn : n ≤ 2107)
    (hb : 200 * (9991/10000 : ℚ)^n ≤ 30) : kickFreq gA n = 30 :=
  ((kick_closed_form gA n hn).1).trans (max_eq_left hb)

/-- C4: after `trigKick` the Kick channel's frequency starts at 200 Hz,
never goes below the 30 Hz floor, strictly decreases on every rendered
sample while it is above the floor, reaches exactly 30 Hz (within 2107
samples), and once at 30 Hz stays exactly 30 Hz on every further sample
until the next trigger. -/
theorem c4_kick_pitch_sweep (gA : ℤ) :
    kickFreq gA 0 = 200 ∧
    (∀ n, 30 ≤ kickFreq gA n) ∧
    (∀ n, 30 < kickFreq gA n → kickFreq gA (n + 1) < kickFreq gA n) ∧
    (∀ n m, kickFreq gA n = 30 → kickFreq gA (n + m) = 30) ∧
    kickFreq gA 2107 = 30 := by
  have h2107 : kickFreq gA 2107 = 30 :=
    kick_reaches_floor gA 2107 (le_refl 2107) kick_freq_pow_bound
  have hpersist : ∀ n, 2107 ≤ n → kickFreq gA n = 30 := by
    intro n hn
    have h := kickFreq_persist gA 2107 h2107 (n - 2107)
    rw [show 2107 + (n - 2107) = n by omega] at h
    exact h
  have hge : ∀ n, 30 ≤ kickFreq gA n := by
    intro n
    rcases le_or_lt n 2107 with hn | hn
    · have hcf := (kick_closed_form gA n hn).1
      unfold kickFreq
      rw [hcf]
      exact le_max_left _ _
    · rw [hpersist n (by omega)]
  refine ⟨rfl, hge, ?_, fun n m h => kickFreq_persist gA n h m, h2107⟩
  intro n hlt
  rcases le_or_lt (n + 1) 2107 with hn | hn
  · have hfn := (kick_closed_form gA n (by omega)).1
    have hfn1 := (kick_closed_form gA (n + 1) hn).1
    unfold kickFreq at hlt ⊢
    rw [hfn] at hlt
    rw [hfn, hfn1]
    have hx : (30:ℚ) < 200 * (9991/10000)^n := by
      rcases lt_max_iff.mp hlt with h | h
      · exact absurd h (lt_irrefl 30)
      · exact h
    rw [max_eq_right hx.le]
    have hdec : 200 * (9991/10000:ℚ)^(n+1) < 200 * (9991/10000)^n := by
      rw [pow_succ, ← mul_assoc]
      exact mul_lt_of_lt_one_right (by positivity) (by decide)
    exact max_lt hx hdec
  · rw [hpersist n (by omega)] at hlt
    exact absurd hlt (lt_irrefl 30)

/-- C4 witness: the first rendered sample strictly lowers the frequency
from 200 Hz, and one sample after the floor is reached the frequency is
still exactly 30 Hz. -/
theorem c4_witness :
    kickFreq 10000 1 < kickFreq 10000 0 ∧ kickFreq 10000 (2107 + 1) = 30 := by
  have h := c4_kick_pitch_sweep 10000
  exact ⟨h.2.2.1 0 (by rw [h.1]; decide),
    h.2.2.2.1 2107 1 h.2.2.2.2⟩


-- C9 helper lemmas
theorem synthSampleCh_not_noise (gA : ℤ) (c : Channel) (r1 r2 : ℕ)
    (hn : c.isNoise = false) :
    (synthSampleCh gA c r1).1 = (synthSampleCh gA c r2).1 ∧
    (synthSampleCh gA c r1).2.1 = r1 ∧
    (synthSampleCh gA c r2).2.1 = r2 ∧
    (synthSampleCh gA c r1).2.2 = (synthSampleCh gA c r2).2.2 := by
  simp only [synthSampleCh]
  split_ifs <;> first | exact ⟨rfl, rfl, rfl, rfl⟩ | simp_all

theorem synthSample_isNoise (i j : Fin 5) (st : Sys) :
    ((synthSample i st).1.ch j).isNoise = (st.ch j).isNoise := by
  by_cases hji : j = i
  · subst hji
    show (Function.update st.ch j _ j).isNoise = _
    rw [Function.update_same]
    exact (synthSampleCh_pm st.gAmp (st.ch j) _).2.1
  · show (Function.update st.ch i _ j).isNoise = _
    rw [Function.update_noteq hji]

theorem synthSample_pats (i : Fin 5) (st : Sys) :
    (synthSample i st).1.gAmp = st.gAmp ∧
    (synthSample i st).1.melPat = st.melPat ∧
    (synthSample i st).1.drmPat = st.drmPat := ⟨rfl, rfl, rfl⟩

theorem synthSample_def_ch (i : Fin 5) (st : Sys) :
    (synthSample i st).1.ch = Function.update st.ch i
      (synthSampleCh st.gAmp (st.ch i)
        (if i.val = 3 then st.nlfsr0 else st.nlfsr1)).1 := rfl

theorem synthSample_def_n0 (i : Fin 5) (st : Sys) :
    (synthSample i st).1.nlfsr0
      = if i.val = 3 then (synthSampleCh st.gAmp (st.ch i)
          (if i.val = 3 then st.nlfsr0 else st.nlfsr1)).2.1
        else st.nlfsr0 := rfl

theorem synthSample_def_n1 (i : Fin 5) (st : Sys) :
    (synthSample i st).1.nlfsr1
      = if i.val = 3 then st.nlfsr1
        else (synthSampleCh st.gAmp (st.ch i)
          (if i.val = 3 then st.nlfsr0 else st.nlfsr1)).2.1 := rfl

theorem exportAgree_synth (i : Fin 5) (s1 s2 : Sys) (h : ExportAgree s1 s2) :
    (synthSample i s1).2 = (synthSample i s2).2 ∧
    ExportAgree (synthSample i s1).1 (synthSample i s2).1 := by
  obtain ⟨hch, hg, hm, hd, h0, h1c, h2c, h3r, h4r⟩ := h
  have hni3 : ((synthSample i s1).1.ch 3).isNoise = true →
      (s1.ch 3).isNoise = true := by rw [synthSample_isNoise]; exact id
  have hni4 : ((synthSample i s1).1.ch 4).isNoise = true →
      (s1.ch 4).isNoise = true := by rw [synthSample_isNoise]; exact id
  by_cases hni : (s1.ch i).isNoise = true
  · -- the channel is a noise channel: its register agrees on both sides
    have hi34 : i = 3 ∨ i = 4 := by fin_cases i <;> simp_all
    have hreg : (if i.val = 3 then s1.nlfsr0 else s1.nlfsr1)
        = (if i.val = 3 then s2.nlfsr0 else s2.nlfsr1) := by
      rcases hi34 with h3 | h4
      · subst h3
        rw [if_pos (show ((3 : Fin 5)).val = 3 from rfl),
          if_pos (show ((3 : Fin 5)).val = 3 from rfl)]
        exact h3r hni
      · subst h4
        rw [if_neg (by decide), if_neg (by decide)]
        exact h4r hni
    have hcc : synthSampleCh s1.gAmp (s1.ch i)
          (if i.val = 3 then s1.nlfsr0 else s1.nlfsr1)
        = synthSampleCh s2.gAmp (s2.ch i)
          (if i.val = 3 then s2.nlfsr0 else s2.nlfsr1) := by
      rw [hch, hg, hreg]
    refine ⟨?_, ?_, hg, hm, hd, ?_, ?_, ?_, ?_, ?_⟩
    · rw [synthSample_val, synthSample_val, hcc]
    · rw [synthSample_def_ch, synthSample_def_ch, hcc, hch]
    · rw [synthSample_isNoise]; exact h0
    · rw [synthSample_isNoise]; exact h1c
    · rw [synthSample_isNoise]; exact h2c
    · intro hx
      rw [synthSample_def_n0, synthSample_def_n0, hcc]
      by_cases hi3 : i.val = 3
      · simp only [if_pos hi3]
      · simp only [if_neg hi3]
        exact h3r (hni3 hx)
    · intro hx
      rw [synthSample_def_n1, synthSample_def_n1, hcc]
      by_cases hi3 : i.val = 3
      · simp only [if_pos hi3]
        exact h4r (hni4 hx)
      · simp only [if_neg hi3]
  · -- non-noise channel: the register is neither read nor written
    have hnf : (s1.ch i).isNoise = false := by
      cases hx : (s1.ch i).isNoise
      · rfl
      · exact absurd hx hni
    have hh1 := synthSampleCh_not_noise s1.gAmp (s1.ch i)
      (if i.val = 3 then s1.nlfsr0 else s1.nlfsr1)
      (if i.val = 3 then s2.nlfsr0 else s2.nlfsr1) hnf
    have hst : (synthSampleCh s1.gAmp (s1.ch i)
          (if i.val = 3 then s1.nlfsr0 else s1.nlfsr1)).1
        = (synthSampleCh s2.gAmp (s2.ch i)
          (if i.val = 3 then s2.nlfsr0 else s2.nlfsr1)).1 := by
      rw [← hch, ← hg]; exact hh1.1
    have hval : (synthSampleCh s1.gAmp (s1.ch i)
          (if i.val = 3 then s1.nlfsr0 else s1.nlfsr1)).2.2
        = (synthSampleCh s2.gAmp (s2.ch i)
          (if i.val = 3 then s2.nlfsr0 else s2.nlfsr1)).2.2 := by
      rw [← hch, ← hg]; exact hh1.2.2.2
    have hpass1 : (synthSampleCh s1.gAmp (s1.ch i)
          (if i.val = 3 then s1.nlfsr0 else s1.nlfsr1)).2.1
        = (if i.val = 3 then s1.nlfsr0 else s1.nlfsr1) := hh1.2.1
    have hpass2 : (synthSampleCh s2.gAmp (s2.ch i)
          (if i.val = 3 then s2.nlfsr0 else s2.nlfsr1)).2.1
        = (if i.val = 3 then s2.nlfsr0 else s2.nlfsr1) := by
      rw [← hch, ← hg]; exact hh1.2.2.1
    refine ⟨?_, ?_, hg, hm, hd, ?_, ?_, ?_, ?_, ?_⟩
    · rw [synthSample_val, synthSample_val]; exact hval
    · rw [synthSample_def_ch, synthSample_def_ch, hst, hch]
    · rw [synthSample_isNoise]; exact h0
    · rw [synthSample_isNoise]; exact h1c
    · rw [synthSample_isNoise]; exact h2c
    · intro hx
      rw [synthSample_def_n0, synthSample_def_n0, hpass1, hpass2]
      by_cases hi3 : i.val = 3
      · simp only [if_pos hi3]
        exact h3r (hni3 hx)
      · simp only [if_neg hi3]
        exact h3r (hni3 hx)
    · intro hx
      rw [synthSample_def_n1, synthSample_def_n1, hpass1, hpass2]
      by_cases hi3 : i.val = 3
      · simp only [if_pos hi3]
        exact h4r (hni4 hx)
      · simp only [if_neg hi3]
        exact h4r (hni4 hx)


theorem trigStep_gAmp (st : Sys) (s : Fin 16) :
    (trigSequencerStep s st).gAmp = st.gAmp := by
  simp only [trigSequencerStep]
  split_ifs <;> rfl

theorem exportAgree_trigStep (s : Fin 16) (s1 s2 : Sys)
    (h : ExportAgree s1 s2) :
    ExportAgree (trigSequencerStep s s1) (trigSequencerStep s s2) := by
  obtain ⟨hch, hg, hm, hd, h0, h1c, h2c, h3r, h4r⟩ := h
  refine ⟨?_, ?_, ?_, ?_, ?_, ?_, ?_, ?_, ?_⟩
  · funext j
    fin_cases j
    · rw [show ((⟨0, by omega⟩ : Fin 5)) = (0 : Fin 5) from rfl,
        trigStep_ch0, trigStep_ch0, hm, hch]
    · rw [show ((⟨1, by omega⟩ : Fin 5)) = (1 : Fin 5) from rfl,
        trigStep_ch1, trigStep_ch1, hm, hch]
    · rw [show ((⟨2, by omega⟩ : Fin 5)) = (2 : Fin 5) from rfl,
        trigStep_ch2, trigStep_ch2, hd, hch]
    · rw [show ((⟨3, by omega⟩ : Fin 5)) = (3 : Fin 5) from rfl,
        trigStep_ch3, trigStep_ch3, hd, hch]
    · rw [show ((⟨4, by omega⟩ : Fin 5)) = (4 : Fin 5) from rfl,
        trigStep_ch4, trigStep_ch4, hd, hch]
  · rw [trigStep_gAmp, trigStep_gAmp, hg]
  · rw [trigStep_melPat, trigStep_melPat, hm]
  · rw [trigStep_drmPat, trigStep_drmPat, hd]
  · rw [trigStep_ch0]
    split_ifs <;> first | rfl | exact h0
  · rw [trigStep_ch1]
    split_ifs <;> first | rfl | exact h1c
  · rw [trigStep_ch2]
    split_ifs <;> first | rfl | exact h2c
  · intro hx
    rw [trigStep_ch3, hd] at hx
    rw [trigStep_nlfsr0, trigStep_nlfsr0, hd]
    by_cases hb : s2.drmPat 1 s = true
    · simp only [if_pos hb]
    · simp only [if_neg hb] at hx ⊢
      exact h3r hx
  · intro hx
    rw [trigStep_ch4, hd] at hx
    rw [trigStep_nlfsr1, trigStep_nlfsr1, hd]
    by_cases hb : s2.drmPat 2 s = true
    · simp only [if_pos hb]
    · simp only [if_neg hb] at hx ⊢
      exact h4r hx

theorem exportAgree_mixChannels (l : List (Fin 5)) :
    ∀ s1 s2 : Sys, ExportAgree s1 s2 →
      (mixChannels l s1).2 = (mixChannels l s2).2 ∧
      ExportAgree (mixChannels l s1).1 (mixChannels l s2).1 := by
  induction l with
  | nil => intro s1 s2 h; exact ⟨rfl, h⟩
  | cons i is ih =>
      intro s1 s2 h
      obtain ⟨hv, hEA⟩ := exportAgree_synth i s1 s2 h
      obtain ⟨hv2, hEA2⟩ := ih _ _ hEA
      constructor
      · show (synthSample i s1).2 + (mixChannels is (synthSample i s1).1).2
            = (synthSample i s2).2 + (mixChannels is (synthSample i s2).1).2
        rw [hv, hv2]
      · exact hEA2

theorem exportAgree_mixFrame (s1 s2 : Sys) (h : ExportAgree s1 s2) :
    (mixFrame s1).2 = (mixFrame s2).2 ∧
    ExportAgree (mixFrame s1).1 (mixFrame s2).1 := by
  obtain ⟨hv, hEA⟩ := exportAgree_mixChannels [0, 1, 2, 3, 4] s1 s2 h
  refine ⟨?_, hEA⟩
  show constrainZ (mixChannels [0, 1, 2, 3, 4] s1).2 (-32767) 32767
      = constrainZ (mixChannels [0, 1, 2, 3, 4] s2).2 (-32767) 32767
  rw [hv]

theorem exportAgree_renderFrames (n : ℕ) :
    ∀ s1 s2 : Sys, ExportAgree s1 s2 →
      (renderFrames n s1).2 = (renderFrames n s2).2 ∧
      ExportAgree (renderFrames n s1).1 (renderFrames n s2).1 := by
  induction n with
  | zero => intro s1 s2 h; exact ⟨rfl, h⟩
  | succ m ih =>
      intro s1 s2 h
      obtain ⟨hv, hEA⟩ := exportAgree_mixFrame s1 s2 h
      obtain ⟨hv2, hEA2⟩ := ih _ _ hEA
      constructor
      · show (mixFrame s1).2 :: (renderFrames m (mixFrame s1).1).2
            = (mixFrame s2).2 :: (renderFrames m (mixFrame s2).1).2
        rw [hv, hv2]
      · exact hEA2

theorem exportAgree_renderSteps (l : List (Fin 16)) (sps : ℕ) :
    ∀ s1 s2 : Sys, ExportAgree s1 s2 →
      (renderStepsList l sps s1).2 = (renderStepsList l sps s2).2 ∧
      ExportAgree (renderStepsList l sps s1).1 (renderStepsList l sps s2).1 := by
  induction l with
  | nil => intro s1 s2 h; exact ⟨rfl, h⟩
  | cons s ss ih =>
      intro s1 s2 h
      have hT := exportAgree_trigStep s s1 s2 h
      obtain ⟨hv, hEA⟩ := exportAgree_renderFrames sps _ _ hT
      obtain ⟨hv2, hEA2⟩ := ih _ _ hEA
      constructor
      · show (renderFrames sps (trigSequencerStep s s1)).2
              ++ (renderStepsList ss sps _).2
            = (renderFrames sps (trigSequencerStep s s2)).2
              ++ (renderStepsList ss sps _).2
        rw [hv, hv2]
      · exact hEA2

theorem exportAgree_renderLoops (n : ℕ) (sps : ℕ) :
    ∀ s1 s2 : Sys, ExportAgree s1 s2 →
      (renderLoops n sps s1).2 = (renderLoops n sps s2).2 := by
  induction n with
  | zero => intro s1 s2 _; rfl
  | succ m ih =>
      intro s1 s2 h
      obtain ⟨hv, hEA⟩ := exportAgree_renderSteps (List.finRange 16) sps s1 s2 h
      have hv2 := ih _ _ hEA
      show (renderStepsList (List.finRange 16) sps s1).2
              ++ (renderLoops m sps _).2
          = (renderStepsList (List.finRange 16) sps s2).2
              ++ (renderLoops m sps _).2
      rw [hv, hv2]

/-- C9: the export render is deterministic and independent of prior live
playback: for equal pattern contents, BPM and global amplitude, two
export renders started from arbitrary (possibly different) live channel
states and noise-register states produce identical sample sequences,
because export first resets all five channel records and every noise
trigger inside the render reseeds its register before it is read. -/
theorem c9_export_independent_of_live_state (s1 s2 : Sys) (L : ℕ)
    (hm : s1.melPat = s2.melPat) (hd : s1.drmPat = s2.drmPat)
    (hb : s1.seqBPM = s2.seqBPM) (hg : s1.gAmp = s2.gAmp) :
    (exportSamples s1 L).2 = (exportSamples s2 L).2 := by
  have hEA : ExportAgree ({ s1 with ch := fun _ => {} })
      ({ s2 with ch := fun _ => {} }) :=
    ⟨rfl, hg, hm, hd, rfl, rfl, rfl,
      fun hx => Bool.noConfusion hx, fun hx => Bool.noConfusion hx⟩
  unfold exportSamples
  rw [hb]
  exact exportAgree_renderLoops L (samplesPerStep s2.seqBPM) _ _ hEA

/-- C9 witness: a dirty live state (all channels mid-note, scrambled
noise registers, different live waveform) and the startup state produce
the same export samples for the same (default) pattern. -/
theorem c9_witness :
    (exportSamples liveDirtySys 1).2 = (exportSamples init 1).2 :=
  c9_export_independent_of_live_state liveDirtySys init 1 rfl rfl rfl rfl

-- C10 helper lemmas
theorem synthSampleCh_freq_ne (gA : ℤ) (c : Channel) (reg : ℕ)
    (h : c.curFreq ≠ 0) : (synthSampleCh gA c reg).1.curFreq ≠ 0 := by
  simp only [synthSampleCh]
  split_ifs <;>
    first
      | exact h
      | exact (show (30:ℚ) ≠ 0 by norm_num)
      | exact ne_of_gt (lt_of_lt_of_le (show (0:ℚ) < 30 by norm_num)
          (not_lt.mp (show ¬ c.curFreq * c.pitchMul < 30 by assumption)))

theorem freqInv_synth (i : Fin 5) (st : Sys) (h : FreqInv st) :
    FreqInv (synthSample i st).1 := by
  intro j
  rw [synthSample_def_ch]
  by_cases hj : j = i
  · subst hj
    rw [Function.update_same]
    exact synthSampleCh_freq_ne _ _ _ (h j)
  · rw [Function.update_noteq hj]
    exact h j

theorem freqInv_mixChannels (l : List (Fin 5)) :
    ∀ st : Sys, FreqInv st → FreqInv (mixChannels l st).1 := by
  induction l with
  | nil => intro st h; exact h
  | cons i is ih => intro st h; exact ih _ (freqInv_synth i st h)

theorem freqInv_mixFrame (st : Sys) (h : FreqInv st) :
    FreqInv (mixFrame st).1 :=
  freqInv_mixChannels [0, 1, 2, 3, 4] st h

theorem freqInv_trigStep (s : Fin 16) (st : Sys) (h : FreqInv st) :
    FreqInv (trigSequencerStep s st) := by
  intro j
  fin_cases j
  · rw [show ((⟨0, by omega⟩ : Fin 5)) = (0 : Fin 5) from rfl, trigStep_ch0]
    split_ifs with hp
    · exact ne_of_gt hp
    · exact h 0
  · rw [show ((⟨1, by omega⟩ : Fin 5)) = (1 : Fin 5) from rfl, trigStep_ch1]
    split_ifs with hp
    · exact ne_of_gt hp
    · exact h 1
  · rw [show ((⟨2, by omega⟩ : Fin 5)) = (2 : Fin 5) from rfl, trigStep_ch2]
    split_ifs
    · exact (show (200:ℚ) ≠ 0 by norm_num)
    · exact h 2
  · rw [show ((⟨3, by omega⟩ : Fin 5)) = (3 : Fin 5) from rfl, trigStep_ch3]
    split_ifs
    · exact h 3
    · exact h 3
  · rw [show ((⟨4, by omega⟩ : Fin 5)) = (4 : Fin 5) from rfl, trigStep_ch4]
    split_ifs
    · exact h 4
    · exact h 4

theorem freqInv_advanceStep (st : Sys) (h : FreqInv st) :
    FreqInv (advanceStep st) := by
  intro j
  rw [show (advanceStep st).ch = (trigSequencerStep st.seqStep st).ch from rfl]
  exact freqInv_trigStep _ _ h j

theorem freqInv_serviceSeq (now : ℕ) (st : Sys) (h : FreqInv st) :
    FreqInv (serviceSeq now st).1 := by
  unfold serviceSeq
  split_ifs with h1 h2
  · exact freqInv_advanceStep _ (fun i => h i)
  · exact h
  · exact h

theorem freqInv_release (i : Fin 5) (st : Sys) (h : FreqInv st) :
    FreqInv (releaseNote i st) := by
  intro j
  show ((Function.update st.ch i (releaseCh (st.ch i))) j).curFreq ≠ 0
  by_cases hj : j = i
  · subst hj
    rw [Function.update_same]
    exact h j
  · rw [Function.update_noteq hj]
    exact h j

theorem seqSetCmd_ch (body : List Char) (st : Sys) :
    (seqSetCmd body st).ch = st.ch := by
  simp only [seqSetCmd]
  split_ifs <;> rfl

theorem seqDrumCmd_ch (body : List Char) (st : Sys) :
    (seqDrumCmd body st).ch = st.ch := by
  simp only [seqDrumCmd]
  split_ifs <;> rfl

theorem freqInv_decoder (now : ℕ) (msg : List Char) (st : Sys)
    (h : FreqInv st) (hok : playGuard msg) :
    FreqInv (onWsMsg now msg st) := by
  unfold onWsMsg
  by_cases h1 : startsWithL ['P','L','A','Y',':'] msg = true
  · rw [if_pos h1]
    intro j
    show ((Function.update st.ch 0
      (trigNoteCh (toFloatQ (msg.drop 5)) st.liveWave)) j).curFreq ≠ 0
    by_cases hj : j = 0
    · subst hj
      rw [Function.update_same]
      exact hok h1
    · rw [Function.update_noteq hj]
      exact h j
  rw [if_neg h1]
  by_cases h2 : msg = ['S','T','O','P']
  · rw [if_pos h2]
    exact freqInv_release 0 st h
  rw [if_neg h2]
  by_cases h3 : startsWithL ['W','A','V','E',':'] msg = true
  · rw [if_pos h3]
    exact fun j => h j
  rw [if_neg h3]
  by_cases h4 : startsWithL ['V','O','L',':'] msg = true
  · rw [if_pos h4]
    exact fun j => h j
  rw [if_neg h4]
  by_cases h5 : startsWithL ['S','E','Q','_','S','E','T',':'] msg = true
  · rw [if_pos h5]
    intro j
    rw [seqSetCmd_ch]
    exact h j
  rw [if_neg h5]
  by_cases h6 : startsWithL ['S','E','Q','_','D','R','U','M',':'] msg = true
  · rw [if_pos h6]
    intro j
    rw [seqDrumCmd_ch]
    exact h j
  rw [if_neg h6]
  by_cases h7 : startsWithL ['S','E','Q','_','B','P','M',':'] msg = true
  · rw [if_pos h7]
    exact fun j => h j
  rw [if_neg h7]
  by_cases h8 : msg = ['S','E','Q','_','P','L','A','Y']
  · rw [if_pos h8]
    exact fun j => h j
  rw [if_neg h8]
  by_cases h9 : msg = ['S','E','Q','_','S','T','O','P']
  · rw [if_pos h9]
    exact freqInv_release 1 (releaseNote 0 { st with seqPlay := false })
      (freqInv_release 0 _ (fun j => h j))
  rw [if_neg h9]
  by_cases h10 : msg = ['S','E','Q','_','C','L','E','A','R']
  · rw [if_pos h10]
    exact freqInv_release 1 (releaseNote 0 _)
      (freqInv_release 0 _ (fun j => h j))
  rw [if_neg h10]
  exact h

theorem freqInv_reachable (ok : List Char → Prop)
    (hok : ∀ m, ok m → playGuard m) :
    ∀ st : Sys, Reachable ok st → FreqInv st := by
  intro st h
  induction h with
  | start => exact fun i => (show (440:ℚ) ≠ 0 by norm_num)
  | cmd now msg _ hokm ih => exact freqInv_decoder now msg _ ih (hok _ hokm)
  | seq now _ ih => exact freqInv_serviceSeq now _ ih
  | audio _ ih => exact freqInv_mixFrame _ ih

/-- C10 (amended): in every state reachable through the public command
interface and the sequencer, PROVIDED every live note-on (`PLAY:`)
command carries a nonzero parsed frequency, no channel is active with a
frequency of exactly 0 (in fact no channel ever carries frequency 0 at
all).  The proviso is necessary: the `PLAY:` handler itself does not
validate its argument (see the counterexample). -/
theorem c10_no_active_zero_freq (st : Sys)
    (h : Reachable playGuard st) :
    ∀ i : Fin 5, (st.ch i).active = true → (st.ch i).curFreq ≠ 0 :=
  fun i _ => freqInv_reachable playGuard (fun _ hm => hm) st h i

/-- C10 counterexample: `PLAY:0` is accepted by the decoder and reaches,
through the public command interface alone, a state whose Lead channel
is ACTIVE with frequency exactly 0 — rest is not confined to the
pattern store. -/
theorem c10_counterexample :
    Reachable (fun _ => True)
      (onWsMsg 0 ['P','L','A','Y',':','0'] init) ∧
    ((onWsMsg 0 ['P','L','A','Y',':','0'] init).ch 0).active = true ∧
    ((onWsMsg 0 ['P','L','A','Y',':','0'] init).ch 0).curFreq = 0 :=
  ⟨Reachable.cmd 0 ['P','L','A','Y',':','0'] Reachable.start trivial,
    by decide, by decide⟩

/-- C10 witness: after the guarded command `PLAY:440` the active Lead
channel's frequency is nonzero. -/
theorem c10_witness :
    ((onWsMsg 0 ['P','L','A','Y',':','4','4','0'] init).ch 0).curFreq ≠ 0 :=
  c10_no_active_zero_freq _
    (Reachable.cmd 0 ['P','L','A','Y',':','4','4','0'] Reachable.start
      (by intro _; decide))
    0 (by decide)
end TinySpeak
